import Mathlib

/-!
# Sudoku (`src/sodoku/sudoku.c`): board checks, win lock and the edit / undo loop

A shallow embedding of the game logic of `sudoku.c`.

* `int board[9][9]` and `int initialBoard[9][9]` are functions `Nat → Nat → Int`; only the
  indices `0..8` are meaningful (an access outside them is undefined in C).
* `for` loops are run by `cfor` / `cloop`, which keep the loop guard of the source and
  recurse on a fuel bound `hi - lo` that a loop with a positive step never exhausts.
* `int square[10]` is a function `Int → Int` indexed by the cell value; the source only
  indexes it with board values, which lie in `0..9` for every well-formed puzzle.
* The ncurses calls that only paint are dropped, except the banner line, which is kept as
  the sequence of `show_banner` / `hide_banner` / `clear` calls made so far.
* `load_board` reads the file system; the grid it reads is the payload of the key event.
-/

namespace Sudoku

/-! ## Loops -/

/-- Worker of `cfor`: the loop guard `i < hi` is tested before every iteration and the body
may leave the enclosing function with `Except.error r` (a C `return r;`). -/
def cforGo {σ ρ : Type} (body : Nat → σ → Except ρ σ) (hi step : Nat) :
    Nat → Nat → σ → Except ρ σ
  | 0, _, s => .ok s
  | fuel + 1, i, s =>
    if i < hi then
      match body i s with
      | .error r => .error r
      | .ok s' => cforGo body hi step fuel (i + step) s'
    else .ok s

/-- The loop `for (int i = lo; i < hi; i = i + step) body` with a possible early `return`. -/
def cfor {σ ρ : Type} (lo hi step : Nat) (body : Nat → σ → Except ρ σ) (s : σ) : Except ρ σ :=
  cforGo body hi step (hi - lo) lo s

/-- Worker of `cloop`. -/
def cloopGo {σ : Type} (body : Nat → σ → σ) (hi step : Nat) : Nat → Nat → σ → σ
  | 0, _, s => s
  | fuel + 1, i, s => if i < hi then cloopGo body hi step fuel (i + step) (body i s) else s

/-- The loop `for (int i = lo; i < hi; i = i + step) body` without early exit. -/
def cloop {σ : Type} (lo hi step : Nat) (body : Nat → σ → σ) (s : σ) : σ :=
  cloopGo body hi step (hi - lo) lo s

/-- Value of a function whose loops ran to the end (`dflt`) or hit a `return r;`. -/
def returned {σ ρ : Type} (dflt : ρ) : Except ρ σ → ρ
  | .error r => r
  | .ok _ => dflt

/-! ## Data -/

/-- A 9×9 `int` grid, `board[row][column]`. -/
abbrev Board := Nat → Nat → Int

/-- The assignment `b[r][c] = v`. -/
def setCell (b : Board) (r c : Nat) (v : Int) : Board :=
  fun i j => if i = r ∧ j = c then v else b i j

/-- The assignment `a[i] = v` on a one-dimensional scratch array indexed by position. -/
def write (a : Nat → Int) (i : Nat) (v : Int) : Nat → Int :=
  fun k => if k = i then v else a k

/-- The assignment `square[v] = x` on the seen-table indexed by cell value. -/
def mark (sq : Int → Int) (v : Int) (x : Int) : Int → Int :=
  fun k => if k = v then x else sq k

/-- A grid given by its rows; cells that are not listed are blank. -/
def ofRows (rows : List (List Int)) : Board :=
  fun i j => (rows.getD i []).getD j 0

/-- What happens on the banner line of the screen. -/
inductive BannerOp where
  | hide
  | clear
  | show (b : String)
  deriving DecidableEq

/-- The globals `g` of the program (the fields the game logic reads), the local
`previous[3]` of `main`, the terminal's `has_colors()` and the banner line. -/
structure Game where
  board : Board
  initialBoard : Board
  y : Nat
  x : Nat
  prev0 : Nat
  prev1 : Nat
  prev2 : Int
  hasColors : Bool
  screen : List BannerOp

/-! ## The three checks -/

/-- The function `checkColumns(check)`: false as soon as two cells of a column clash. -/
def checkColumns (board : Board) (check : Int) : Bool :=
  returned true <|
    cfor 0 9 1 (fun i col =>
      cfor 0 9 1 (fun j col =>
        let col := write col j (board j i)
        cfor 0 j 1 (fun k col =>
          if check = 1 ∧ col k = col j ∧ col k ≠ 0 then .error false
          else if check ≠ 1 ∧ col k = col j then .error false
          else .ok col) col) col) (fun _ => 0)

/-- The function `checkRows(check)`: false as soon as two cells of a row clash. -/
def checkRows (board : Board) (check : Int) : Bool :=
  returned true <|
    cfor 0 9 1 (fun i row =>
      cfor 0 9 1 (fun j row =>
        let row := write row j (board i j)
        cfor 0 j 1 (fun k row =>
          if check = 1 ∧ row k = row j ∧ row k ≠ 0 then .error false
          else if check ≠ 1 ∧ row k = row j then .error false
          else .ok row) row) row) (fun _ => 0)

/-- The body of the innermost loop of `checkSquares` for a cell holding `v`. -/
def scanCell (check : Int) (v : Int) (square : Int → Int) : Except Bool (Int → Int) :=
  if check = 1 ∧ v ≠ 0 ∧ square v = 1 then .error false
  else if check ≠ 1 ∧ (v = 0 ∨ square v = 1) then .error false
  else .ok (mark square v 1)

/-- The function `checkSquares(check)`: scans the nine boxes with the seen-table `square`. -/
def checkSquares (board : Board) (check : Int) : Bool :=
  returned true <|
    cfor 0 7 3 (fun a square =>
      cfor 0 7 3 (fun b _square =>
        let square : Int → Int := fun _ => 0
        cfor a (a + 3) 1 (fun i square =>
          cfor b (b + 3) 1 (fun j square => scanCell check (board i j) square) square)
          square) square) (fun _ => 0)

/-! ## Banner, win lock, drawing -/

/-- The function `show_banner(b)`. -/
def show_banner (s : Game) (b : String) : Game :=
  { s with screen := s.screen ++ [BannerOp.show b] }

/-- The function `hide_banner()`. -/
def hide_banner (s : Game) : Game :=
  { s with screen := s.screen ++ [BannerOp.hide] }

/-- The function `wonGame()`: the returned flag and the globals afterwards. -/
def wonGame (s : Game) : Bool × Game :=
  if checkColumns s.board 0 && checkRows s.board 0 && checkSquares s.board 0 then
    let s := show_banner s "Congrats, you won!"
    let s := cloop 0 9 1 (fun i s =>
      cloop 0 9 1 (fun j s => { s with initialBoard := setCell s.initialBoard j i 9 }) s) s
    (true, s)
  else (false, s)

/-- The function `draw_numbers()`: paints the 81 cells; with colours it asks `wonGame()` for each. -/
def draw_numbers (s : Game) : Game :=
  cloop 0 9 1 (fun _i s =>
    cloop 0 9 1 (fun _j s => if s.hasColors then (wonGame s).2 else s) s) s

/-- The function `warning()`: seven tests in a row, each may show a banner. -/
def warning (s : Game) : Game :=
  let s := if !checkColumns s.board 1 then show_banner s "You have a column problem" else s
  let s := if !checkRows s.board 1 then show_banner s "You have a row problem" else s
  let s := if !checkSquares s.board 1 then show_banner s "You have a square problem" else s
  let s := if !checkColumns s.board 1 && !checkRows s.board 1 then
    show_banner s "You have a column and a row problem" else s
  let s := if !checkColumns s.board 1 && !checkSquares s.board 1 then
    show_banner s "You have a column and a square problem" else s
  let s := if !checkRows s.board 1 && !checkSquares s.board 1 then
    show_banner s "You have a row problem a square problem" else s
  let s := if !checkRows s.board 1 && !checkColumns s.board 1 && !checkSquares s.board 1 then
    show_banner s "You have a problem with the column, row, and square" else s
  s

/-! ## Loading -/

/-- The function `load_board()`: `disk` is the grid `fread` delivers, `none` when the file cannot be
opened, has the wrong size or is too short. -/
def load_board (s : Game) (disk : Option Board) : Bool × Game :=
  match disk with
  | none => (false, s)
  | some grid =>
    let s := { s with board := grid }
    let s := cloop 0 9 1 (fun i s =>
      cloop 0 9 1 (fun j s =>
        { s with initialBoard := setCell s.initialBoard j i (s.board j i) }) s) s
    (true, s)

/-- The function `restart_game()`. -/
def restart_game (s : Game) (disk : Option Board) : Bool × Game :=
  match load_board s disk with
  | (false, s) => (false, s)
  | (true, s) =>
    let s := draw_numbers s
    let s := { s with y := 4, x := 4 }
    (true, s)

/-- The function `redraw_all()`. -/
def redraw_all (s : Game) : Game :=
  let s := { s with screen := s.screen ++ [BannerOp.clear] }
  draw_numbers s

/-! ## The input loop of `main` -/

/-- The decoded key of one iteration of the `do ... while` loop of `main`. -/
inductive Key where
  /-- Key `'N'`, with what `load_board` finds on disk for the new board number. -/
  | newGame (disk : Option Board)
  /-- Key `'R'`, with what `load_board` finds on disk. -/
  | restart (disk : Option Board)
  /-- Key `CTRL('l')`; a `SIGWINCH` has the same effect. -/
  | redraw
  | up
  | down
  | left
  | right
  /-- A character `ch` of the case range `'1' ... '9'`, that is `49 ≤ ch ≤ 57`. -/
  | digit (ch : Int)
  /-- Key `'0'`, `'.'`, `KEY_BACKSPACE` or `KEY_DC`. -/
  | clear
  /-- Key `'U'` or `CTRL('Z')`. -/
  | undo
  /-- Key `'Q'`: the loop ends. -/
  | quit
  /-- Any other key, or `ERR` when `getch` times out. -/
  | other

/-- The zero-initialised globals and `int previous[3] = {10};`. -/
def start (hasColors : Bool) : Game :=
  { board := fun _ _ => 0, initialBoard := fun _ _ => 0, y := 0, x := 0,
    prev0 := 10, prev1 := 0, prev2 := 0, hasColors := hasColors, screen := [] }

/-- What `main` does before the input loop: the first `restart_game()` and
`redraw_all()`; `none` when `main` returns 6. -/
def boot (hasColors : Bool) (disk : Option Board) : Option Game :=
  match restart_game (start hasColors) disk with
  | (false, _) => none
  | (true, s) => some (redraw_all s)

/-- One iteration of the input loop; `none` when `main` returns. -/
def step (s : Game) : Key → Option Game
  | .newGame disk =>
    match restart_game s disk with
    | (false, _) => none
    | (true, s) => some s
  | .restart disk =>
    match restart_game s disk with
    | (false, _) => none
    | (true, s) => some s
  | .redraw => some (redraw_all s)
  | .up => some (if s.y > 0 then { s with y := s.y - 1 } else { s with y := 8 })
  | .down => some (if s.y < 8 then { s with y := s.y + 1 } else { s with y := 0 })
  | .left => some (if s.x > 0 then { s with x := s.x - 1 } else { s with x := 8 })
  | .right => some (if s.x < 8 then { s with x := s.x + 1 } else { s with x := 0 })
  | .digit ch =>
    if 49 ≤ ch ∧ ch ≤ 57 then
      let s :=
        if s.initialBoard s.y s.x = 0 then
          let s := { s with prev0 := s.y, prev1 := s.x, prev2 := s.board s.y s.x }
          let s := { s with board := setCell s.board s.y s.x (ch - 48) }
          let s := draw_numbers s
          if checkColumns s.board 1 || checkRows s.board 1 || checkSquares s.board 1 then
            hide_banner s
          else s
        else s
      let s := (wonGame s).2
      some (warning s)
    else some s
  | .clear =>
    let s :=
      if s.initialBoard s.y s.x = 0 then
        let s := { s with prev0 := s.y, prev1 := s.x, prev2 := s.board s.y s.x }
        let s := { s with board := setCell s.board s.y s.x 0 }
        draw_numbers s
      else s
    some (warning s)
  | .undo =>
    if s.prev0 ≠ 10 then
      match wonGame s with
      | (true, s) => some s
      | (false, s) =>
        let s := { s with board := setCell s.board s.prev0 s.prev1 s.prev2 }
        let s := draw_numbers s
        let s :=
          if checkColumns s.board 1 || checkRows s.board 1 || checkSquares s.board 1 then
            hide_banner s
          else s
        some (warning s)
    else some s
  | .quit => none
  | .other => some s

/-- The input loop on a sequence of keys; `none` once `main` has returned. -/
def run (s : Game) : List Key → Option Game
  | [] => some s
  | k :: ks =>
    match step s k with
    | none => none
    | some s' => run s' ks


/-! ## Specification-side notions -/

/-- Whether two cells of one unit, holding `u` and `v`, make a check with flag `check`
return `false` in `checkRows` / `checkColumns`. -/
def clash (check u v : Int) : Prop :=
  (check = 1 ∧ u = v ∧ u ≠ 0) ∨ (check ≠ 1 ∧ u = v)

/-- The value of the `p`-th cell of the box with top-left corner `(a, b)`, in the order
in which `checkSquares` visits the cells. -/
def boxVal (board : Board) (a b p : Nat) : Int := board (a + p / 3) (b + p % 3)

/-- The `n`-th cell of a box lets the scan continue. -/
def cellOK (check : Int) (val : Nat → Int) (n : Nat) : Prop :=
  ¬ (check = 1 ∧ val n ≠ 0 ∧ ∃ p, p < n ∧ val p = val n) ∧
  ¬ (check ≠ 1 ∧ (val n = 0 ∨ ∃ p, p < n ∧ val p = val n))

/-- The seen-table holds 1 exactly at the values of the first `n` cells. -/
def Seen (val : Nat → Int) (n : Nat) (sq : Int → Int) : Prop :=
  ∀ v, sq v = 1 ↔ ∃ p, p < n ∧ val p = v

/-- All cells of the box with corner `(a, b)` pass the scan. -/
def boxOK (check : Int) (board : Board) (a b : Nat) : Prop :=
  ∀ n, n < 9 → cellOK check (boxVal board a b) n

/-- Every cell of the 9×9 grid holds a value in `0..9`. -/
def InRange (b : Board) : Prop :=
  ∀ r, r < 9 → ∀ c, c < 9 → 0 ≤ b r c ∧ b r c ≤ 9

instance (b : Board) : Decidable (InRange b) := by
  unfold InRange; infer_instance

/-- The nine values of a unit, listed by position. -/
def unitVals (val : Nat → Int) : List Int := (List.range 9).map val

/-- The digits a solved unit has to contain. -/
def digits : List Int := [1, 2, 3, 4, 5, 6, 7, 8, 9]

/-- Spec: the unit contains each digit 1..9 exactly once and no blank. -/
def unitComplete (val : Nat → Int) : Prop :=
  (∀ d, d ∈ digits → (unitVals val).count d = 1) ∧ 0 ∉ unitVals val

instance (val : Nat → Int) : Decidable (unitComplete val) := by
  unfold unitComplete; infer_instance

/-- Spec: every row, every column and every 3×3 box contains each digit 1..9 exactly once,
with no blank. -/
def Solved (b : Board) : Prop :=
  (∀ r, r < 9 → unitComplete (fun p => b r p)) ∧
  (∀ c, c < 9 → unitComplete (fun p => b p c)) ∧
  (∀ i, i < 3 → ∀ j, j < 3 → unitComplete (boxVal b (3 * i) (3 * j)))

instance (b : Board) : Decidable (Solved b) := by
  unfold Solved; infer_instance

/-- Two different cells of the grid that lie in the same unit hold the same non-zero value. -/
def sameNonzero (b : Board) (r1 c1 r2 c2 : Nat) : Prop :=
  (r1 ≠ r2 ∨ c1 ≠ c2) ∧ b r1 c1 = b r2 c2 ∧ b r1 c1 ≠ 0

instance (b : Board) (r1 c1 r2 c2 : Nat) : Decidable (sameNonzero b r1 c1 r2 c2) := by
  unfold sameNonzero; infer_instance

/-- A solved grid, used to instantiate the theorems. -/
def solvedGrid : Board := ofRows [
  [5, 3, 4, 6, 7, 8, 9, 1, 2],
  [6, 7, 2, 1, 9, 5, 3, 4, 8],
  [1, 9, 8, 3, 4, 2, 5, 6, 7],
  [8, 5, 9, 7, 6, 1, 4, 2, 3],
  [4, 2, 6, 8, 5, 3, 7, 9, 1],
  [7, 1, 3, 9, 2, 4, 8, 5, 6],
  [9, 6, 1, 5, 3, 7, 2, 8, 4],
  [2, 8, 7, 4, 1, 9, 6, 3, 5],
  [3, 4, 5, 2, 8, 6, 1, 7, 9]]

/-- The grid of the scenario of the spec: row 0 is `5 3 . . 7 . . . .`, all else blank. -/
def scenarioGrid : Board := ofRows [[5, 3, 0, 0, 7, 0, 0, 0, 0]]

/-- The scenario grid after a second 5 was entered at cell (0, 2). -/
def conflictGrid : Board := ofRows [[5, 3, 5, 0, 7, 0, 0, 0, 0]]

/-- What the win lock makes of the given grid: 9 in each of the 81 cells. -/
def lockAll (given : Board) : Board :=
  fun r c => if r < 9 ∧ c < 9 then 9 else given r c

/-- What `load_board` makes of the given grid: a copy of the 81 cells of `b`. -/
def copyAll (given b : Board) : Board :=
  fun r c => if r < 9 ∧ c < 9 then b r c else given r c

/-- The condition of `wonGame`: the three strict checks, short-circuited as in C. -/
def wonFlag (b : Board) : Bool :=
  checkColumns b 0 && checkRows b 0 && checkSquares b 0

/-- A game state around a board, with nothing recorded and nothing on screen. -/
def gameOf (b : Board) (given : Board) (y x : Nat) : Game :=
  { board := b, initialBoard := given, y := y, x := x,
    prev0 := 10, prev1 := 0, prev2 := 0, hasColors := false, screen := [] }

/-- The texts `warning` passes to `show_banner`, in order, when the soft checks of the
columns, rows and squares return `c`, `r` and `q`. -/
def warningCalls (c r q : Bool) : List String :=
  (if !c then ["You have a column problem"] else []) ++
  (if !r then ["You have a row problem"] else []) ++
  (if !q then ["You have a square problem"] else []) ++
  (if !c && !r then ["You have a column and a row problem"] else []) ++
  (if !c && !q then ["You have a column and a square problem"] else []) ++
  (if !r && !q then ["You have a row problem a square problem"] else []) ++
  (if !r && !c && !q then ["You have a problem with the column, row, and square"] else [])

/-- The solved grid with the centre cell blanked: one digit short of a win. -/
def almostSolved : Board := setCell solvedGrid 4 4 0

/-- The keys that neither reload a board nor leave the program. -/
def Key.inGame : Key → Bool
  | .newGame _ => false
  | .restart _ => false
  | .quit => false
  | _ => true

/-- The keys that take the cursor from the centre to cell (0, 2) and enter a 5 there. -/
def scenarioKeys : List Key :=
  [Key.up, Key.up, Key.up, Key.up, Key.left, Key.left, Key.digit 53]

/-- The game after the scenario grid was loaded and the keys `ks` were typed. -/
def scenarioRun (hasColors : Bool) (ks : List Key) : Option Game :=
  (boot hasColors (some scenarioGrid)).bind (fun s => run s ks)

/-- A grid whose centre cell is a given 3. -/
def centreGiven : Board := setCell scenarioGrid 4 4 3

/-- Every given cell of the grid still holds its given value. -/
def GivenKept (s : Game) : Prop :=
  ∀ r, r < 9 → ∀ c, c < 9 → s.initialBoard r c ≠ 0 → s.board r c = s.initialBoard r c

/-- The win lock has fired: the board passes `wonGame` and all 81 given cells hold 9. -/
def WinLocked (s : Game) : Prop :=
  (wonGame s).1 = true ∧ ∀ r, r < 9 → ∀ c, c < 9 → s.initialBoard r c = 9

/-- The recorded move, if any, is about a cell of the grid that is not given. -/
def RecordFresh (s : Game) : Prop :=
  s.prev0 = 10 ∨ (s.prev0 < 9 ∧ s.prev1 < 9 ∧ s.initialBoard s.prev0 s.prev1 = 0)

/-! ## Loop rules -/

/-- The keys that neither edit the board nor reload it nor leave the program: the cursor
keys, the redraw and the keys without a case. -/
def Key.noEdit : Key → Bool
  | .up => true
  | .down => true
  | .left => true
  | .right => true
  | .redraw => true
  | .other => true
  | _ => false

/-- The keys of a game played on one puzzle: every key that stays in the game, and a
restart whose `load_board` finds the grid of that puzzle on disk again. -/
def Key.playsOn (grid : Board) : Key → Prop
  | .restart (some g) => g = grid
  | k => k.inGame = true

/-- The recorded move, if any, is about a cell that is blank in the loaded puzzle. -/
def RecordOn (grid : Board) (s : Game) : Prop :=
  s.prev0 = 10 ∨ (s.prev0 < 9 ∧ s.prev1 < 9 ∧ grid s.prev0 s.prev1 = 0)

/-- What holds along a game played on the puzzle `grid`: the cursor is inside the grid, the
recorded move is about a blank of the puzzle, and either the given grid is the puzzle and
the board agrees with it on the given cells, or the win lock has fired. -/
def PlayInv (grid : Board) (s : Game) : Prop :=
  s.y < 9 ∧ s.x < 9 ∧ RecordOn grid s ∧
  ((GivenKept s ∧ ∀ r, r < 9 → ∀ c, c < 9 → s.initialBoard r c = grid r c) ∨ WinLocked s)

/-- The cursor keys leave alone: the board, the given grid, the recorded move, the
colour setting and the banner line. -/
def SameButCursor (s t : Game) : Prop :=
  t.board = s.board ∧ t.initialBoard = s.initialBoard ∧
  t.prev0 = s.prev0 ∧ t.prev1 = s.prev1 ∧ t.prev2 = s.prev2 ∧
  t.hasColors = s.hasColors ∧ t.screen = s.screen

/-- Some cell of the 9×9 grid is blank. -/
def HasBlank (b : Board) : Prop :=
  ∃ r, r < 9 ∧ ∃ c, c < 9 ∧ b r c = 0

instance (b : Board) : Decidable (HasBlank b) := by
  unfold HasBlank; infer_instance

/-! The fuel `hi - lo` handed out by `cfor` and `cloop` is never the reason a loop stops:
any larger amount gives the same result. -/

theorem cforGo_fuel {σ ρ : Type} (body : Nat → σ → Except ρ σ) (hi step : Nat)
    (hstep : 0 < step) :
    ∀ f1 f2 i s, hi - i ≤ f1 → hi - i ≤ f2 →
      cforGo body hi step f1 i s = cforGo body hi step f2 i s := by
  intro f1
  induction f1 with
  | zero =>
    intro f2 i s h1 _
    have hle : hi ≤ i := by omega
    cases f2 with
    | zero => rfl
    | succ f2 => simp [cforGo, Nat.not_lt.mpr hle]
  | succ f1 ih =>
    intro f2 i s h1 h2
    cases f2 with
    | zero =>
      have hle : hi ≤ i := by omega
      simp [cforGo, Nat.not_lt.mpr hle]
    | succ f2 =>
      simp only [cforGo]
      split
      · rename_i hlt
        cases hb : body i s with
        | error r => rfl
        | ok s' => exact ih f2 (i + step) s' (by omega) (by omega)
      · rfl

theorem cloopGo_fuel {σ : Type} (body : Nat → σ → σ) (hi step : Nat) (hstep : 0 < step) :
    ∀ f1 f2 i s, hi - i ≤ f1 → hi - i ≤ f2 →
      cloopGo body hi step f1 i s = cloopGo body hi step f2 i s := by
  intro f1
  induction f1 with
  | zero =>
    intro f2 i s h1 _
    have hle : hi ≤ i := by omega
    cases f2 with
    | zero => rfl
    | succ f2 => simp [cloopGo, Nat.not_lt.mpr hle]
  | succ f1 ih =>
    intro f2 i s h1 h2
    cases f2 with
    | zero =>
      have hle : hi ≤ i := by omega
      simp [cloopGo, Nat.not_lt.mpr hle]
    | succ f2 =>
      simp only [cloopGo]
      split
      · exact ih f2 (i + step) (body i s) (by omega) (by omega)
      · rfl

/-- Hoare rule for a unit-step loop whose body either fails with `false` (when `P i` does
not hold) or continues and re-establishes the invariant. -/
theorem cforGo_rule {σ : Type} (body : Nat → σ → Except Bool σ) (lo hi : Nat)
    (I : Nat → σ → Prop) (P : Nat → Prop)
    (hok : ∀ i s, lo ≤ i → i < hi → I i s → P i → ∃ s', body i s = .ok s' ∧ I (i + 1) s')
    (hbad : ∀ i s, lo ≤ i → i < hi → I i s → ¬ P i → body i s = .error false) :
    ∀ fuel i s, lo ≤ i → hi - i ≤ fuel → i ≤ hi → I i s →
      ((∀ t, i ≤ t → t < hi → P t) → ∃ s', cforGo body hi 1 fuel i s = .ok s' ∧ I hi s') ∧
      (¬ (∀ t, i ≤ t → t < hi → P t) → cforGo body hi 1 fuel i s = .error false) := by
  intro fuel
  induction fuel with
  | zero =>
    intro i s _ hf hle hI
    have hi_eq : i = hi := by omega
    subst hi_eq
    refine ⟨fun _ => ⟨s, rfl, hI⟩, fun h => ?_⟩
    exact absurd (fun t h1 h2 => absurd h1 (by omega)) h
  | succ fuel ih =>
    intro i s hlo hf hle hI
    by_cases hlt : i < hi
    · by_cases hP : P i
      · obtain ⟨s', hb, hI'⟩ := hok i s hlo hlt hI hP
        have hrec := ih (i + 1) s' (by omega) (by omega) (by omega) hI'
        have heq : cforGo body hi 1 (fuel + 1) i s = cforGo body hi 1 fuel (i + 1) s' := by
          simp [cforGo, hlt, hb]
        rw [heq]
        constructor
        · intro hall
          exact hrec.1 (fun t h1 h2 => hall t (by omega) h2)
        · intro hnall
          apply hrec.2
          intro hall
          apply hnall
          intro t h1 h2
          by_cases ht : t = i
          · subst ht; exact hP
          · exact hall t (by omega) h2
      · have hb := hbad i s hlo hlt hI hP
        constructor
        · intro hall
          exact absurd (hall i (Nat.le_refl i) hlt) hP
        · intro _
          simp [cforGo, hlt, hb]
    · have hi_eq : i = hi := by omega
      subst hi_eq
      constructor
      · intro _
        exact ⟨s, by simp [cforGo], hI⟩
      · intro h
        exact absurd (fun t h1 h2 => absurd h1 (by omega)) h

theorem cfor_rule {σ : Type} (lo hi : Nat) (body : Nat → σ → Except Bool σ)
    (I : Nat → σ → Prop) (P : Nat → Prop) (s : σ) (hle : lo ≤ hi) (h0 : I lo s)
    (hok : ∀ i s, lo ≤ i → i < hi → I i s → P i → ∃ s', body i s = .ok s' ∧ I (i + 1) s')
    (hbad : ∀ i s, lo ≤ i → i < hi → I i s → ¬ P i → body i s = .error false) :
    ((∀ t, lo ≤ t → t < hi → P t) → ∃ s', cfor lo hi 1 body s = .ok s' ∧ I hi s') ∧
    (¬ (∀ t, lo ≤ t → t < hi → P t) → cfor lo hi 1 body s = .error false) :=
  cforGo_rule body lo hi I P hok hbad (hi - lo) lo s (Nat.le_refl _) (Nat.le_refl _) hle h0

/-- The scan of one row or column `val` (the two inner loops of `checkRows` and
`checkColumns`): it continues iff no two positions clash. -/
theorem lineScan_rule (check : Int) (val : Nat → Int) (arr : Nat → Int) :
    ((∀ j, j < 9 → ∀ k, k < j → ¬ clash check (val k) (val j)) →
      ∃ arr', cfor 0 9 1 (fun j arr =>
        cfor 0 j 1 (fun k arr =>
          if check = 1 ∧ arr k = arr j ∧ arr k ≠ 0 then .error false
          else if check ≠ 1 ∧ arr k = arr j then .error false
          else .ok arr) (write arr j (val j))) arr = .ok arr') ∧
    (¬ (∀ j, j < 9 → ∀ k, k < j → ¬ clash check (val k) (val j)) →
      cfor 0 9 1 (fun j arr =>
        cfor 0 j 1 (fun k arr =>
          if check = 1 ∧ arr k = arr j ∧ arr k ≠ 0 then .error false
          else if check ≠ 1 ∧ arr k = arr j then .error false
          else .ok arr) (write arr j (val j))) arr = .error false) := by
  have key := cfor_rule 0 9 (fun j arr =>
        cfor 0 j 1 (fun k arr =>
          if check = 1 ∧ arr k = arr j ∧ arr k ≠ 0 then .error false
          else if check ≠ 1 ∧ arr k = arr j then .error false
          else .ok arr) (write arr j (val j)))
    (fun j arr => ∀ k, k < j → arr k = val k)
    (fun j => ∀ k, k < j → ¬ clash check (val k) (val j)) arr (by omega)
    (fun k hk => absurd hk (by omega)) ?_ ?_
  · constructor
    · intro h
      obtain ⟨s', hs', _⟩ := key.1 (fun t _ ht => h t ht)
      exact ⟨s', hs'⟩
    · intro h
      exact key.2 (fun h' => h (fun j hj => h' j (Nat.zero_le j) hj))
  · -- the body continues
    intro j arr _ hj hI hP
    have inner := cfor_rule 0 j (fun k (a : Nat → Int) =>
          if check = 1 ∧ a k = a j ∧ a k ≠ 0 then (Except.error false : Except Bool (Nat → Int))
          else if check ≠ 1 ∧ a k = a j then .error false
          else .ok a)
      (fun _ a => a = write arr j (val j))
      (fun k => ¬ clash check (val k) (val j)) (write arr j (val j)) (Nat.zero_le j) rfl ?_ ?_
    · obtain ⟨s', hs', hs'eq⟩ := inner.1 (fun t _ ht => hP t ht)
      refine ⟨s', hs', ?_⟩
      intro k hk
      subst hs'eq
      by_cases hkj : k = j
      · subst hkj; simp [write]
      · have : k < j := by omega
        simp [write, hkj, hI k this]
    · intro k a _ hk ha hPk
      subst ha
      refine ⟨_, ?_, rfl⟩
      have hk' : k ≠ j := by omega
      have e1 : write arr j (val j) k = val k := by simp [write, hk', hI k hk]
      have e2 : write arr j (val j) j = val j := by simp [write]
      simp only [e1, e2]
      simp only [clash, not_or] at hPk
      rw [if_neg hPk.1, if_neg hPk.2]
    · intro k a _ hk ha hPk
      subst ha
      have hk' : k ≠ j := by omega
      have e1 : write arr j (val j) k = val k := by simp [write, hk', hI k hk]
      have e2 : write arr j (val j) j = val j := by simp [write]
      simp only [e1, e2]
      simp only [clash, not_not] at hPk
      rcases hPk with h | h
      · rw [if_pos h]
      · by_cases h1 : check = 1 ∧ val k = val j ∧ val k ≠ 0
        · rw [if_pos h1]
        · rw [if_neg h1, if_pos h]
  · -- the body returns false
    intro j arr _ hj hI hP
    have inner := cfor_rule 0 j (fun k (a : Nat → Int) =>
          if check = 1 ∧ a k = a j ∧ a k ≠ 0 then (Except.error false : Except Bool (Nat → Int))
          else if check ≠ 1 ∧ a k = a j then .error false
          else .ok a)
      (fun _ a => a = write arr j (val j))
      (fun k => ¬ clash check (val k) (val j)) (write arr j (val j)) (Nat.zero_le j) rfl ?_ ?_
    · exact inner.2 (fun h => hP (fun k hk => h k (Nat.zero_le k) hk))
    · intro k a _ hk ha hPk
      subst ha
      refine ⟨_, ?_, rfl⟩
      have hk' : k ≠ j := by omega
      have e1 : write arr j (val j) k = val k := by simp [write, hk', hI k hk]
      have e2 : write arr j (val j) j = val j := by simp [write]
      simp only [e1, e2]
      simp only [clash, not_or] at hPk
      rw [if_neg hPk.1, if_neg hPk.2]
    · intro k a _ hk ha hPk
      subst ha
      have hk' : k ≠ j := by omega
      have e1 : write arr j (val j) k = val k := by simp [write, hk', hI k hk]
      have e2 : write arr j (val j) j = val j := by simp [write]
      simp only [e1, e2]
      simp only [clash, not_not] at hPk
      rcases hPk with h | h
      · rw [if_pos h]
      · by_cases h1 : check = 1 ∧ val k = val j ∧ val k ≠ 0
        · rw [if_pos h1]
        · rw [if_neg h1, if_pos h]

theorem checkRows_iff (board : Board) (check : Int) :
    checkRows board check = true ↔
      ∀ i, i < 9 → ∀ j, j < 9 → ∀ k, k < j → ¬ clash check (board i k) (board i j) := by
  have key := cfor_rule 0 9 (fun i row =>
      cfor 0 9 1 (fun j row =>
        let row := write row j (board i j)
        cfor 0 j 1 (fun k row =>
          if check = 1 ∧ row k = row j ∧ row k ≠ 0 then (Except.error false : Except Bool (Nat → Int))
          else if check ≠ 1 ∧ row k = row j then .error false
          else .ok row) row) row)
    (fun _ _ => True)
    (fun i => ∀ j, j < 9 → ∀ k, k < j → ¬ clash check (board i k) (board i j))
    (fun _ => 0) (by omega) trivial
    (fun i s _ _ _ hP => by
      obtain ⟨s', hs'⟩ := (lineScan_rule check (fun p => board i p) s).1 hP
      exact ⟨s', hs', trivial⟩)
    (fun i s _ _ _ hP => (lineScan_rule check (fun p => board i p) s).2 hP)
  unfold checkRows
  by_cases h : ∀ t, 0 ≤ t → t < 9 → ∀ j, j < 9 → ∀ k, k < j → ¬ clash check (board t k) (board t j)
  · obtain ⟨s', hs', _⟩ := key.1 h
    rw [hs']
    simp only [returned, true_iff]
    exact fun i hi => h i (Nat.zero_le i) hi
  · rw [key.2 h]
    simp only [returned, Bool.false_eq_true, false_iff]
    exact fun h' => h (fun t _ ht => h' t ht)

theorem checkColumns_iff (board : Board) (check : Int) :
    checkColumns board check = true ↔
      ∀ i, i < 9 → ∀ j, j < 9 → ∀ k, k < j → ¬ clash check (board k i) (board j i) := by
  have key := cfor_rule 0 9 (fun i col =>
      cfor 0 9 1 (fun j col =>
        let col := write col j (board j i)
        cfor 0 j 1 (fun k col =>
          if check = 1 ∧ col k = col j ∧ col k ≠ 0 then (Except.error false : Except Bool (Nat → Int))
          else if check ≠ 1 ∧ col k = col j then .error false
          else .ok col) col) col)
    (fun _ _ => True)
    (fun i => ∀ j, j < 9 → ∀ k, k < j → ¬ clash check (board k i) (board j i))
    (fun _ => 0) (by omega) trivial
    (fun i s _ _ _ hP => by
      obtain ⟨s', hs'⟩ := (lineScan_rule check (fun p => board p i) s).1 hP
      exact ⟨s', hs', trivial⟩)
    (fun i s _ _ _ hP => (lineScan_rule check (fun p => board p i) s).2 hP)
  unfold checkColumns
  by_cases h : ∀ t, 0 ≤ t → t < 9 → ∀ j, j < 9 → ∀ k, k < j → ¬ clash check (board k t) (board j t)
  · obtain ⟨s', hs', _⟩ := key.1 h
    rw [hs']
    simp only [returned, true_iff]
    exact fun i hi => h i (Nat.zero_le i) hi
  · rw [key.2 h]
    simp only [returned, Bool.false_eq_true, false_iff]
    exact fun h' => h (fun t _ ht => h' t ht)

/-! ## The scan of one 3×3 box -/

theorem scanCell_ok (check : Int) (val : Nat → Int) (n : Nat) (sq : Int → Int)
    (hS : Seen val n sq) (hP : cellOK check val n) :
    ∃ sq', scanCell check (val n) sq = .ok sq' ∧ Seen val (n + 1) sq' := by
  refine ⟨mark sq (val n) 1, ?_, ?_⟩
  · unfold scanCell
    have h1 : ¬ (check = 1 ∧ val n ≠ 0 ∧ sq (val n) = 1) := by
      rw [hS (val n)]; exact hP.1
    have h2 : ¬ (check ≠ 1 ∧ (val n = 0 ∨ sq (val n) = 1)) := by
      rw [hS (val n)]; exact hP.2
    rw [if_neg h1, if_neg h2]
  · intro v
    unfold mark
    by_cases hv : v = val n
    · subst hv
      simp only [if_true, true_iff]
      exact ⟨n, by omega, rfl⟩
    · rw [if_neg hv, hS v]
      constructor
      · rintro ⟨p, hp, hpv⟩
        exact ⟨p, by omega, hpv⟩
      · rintro ⟨p, hp, hpv⟩
        have hpn : p ≠ n := by
          intro h; subst h; exact hv hpv.symm
        exact ⟨p, by omega, hpv⟩

theorem scanCell_bad (check : Int) (val : Nat → Int) (n : Nat) (sq : Int → Int)
    (hS : Seen val n sq) (hP : ¬ cellOK check val n) :
    scanCell check (val n) sq = .error false := by
  unfold scanCell
  by_cases h1 : check = 1 ∧ val n ≠ 0 ∧ sq (val n) = 1
  · rw [if_pos h1]
  · rw [if_neg h1]
    have h2 : check ≠ 1 ∧ (val n = 0 ∨ sq (val n) = 1) := by
      by_contra h2
      apply hP
      rw [hS (val n)] at h1 h2
      exact ⟨h1, h2⟩
    rw [if_pos h2]

/-- The two inner loops of `checkSquares` on the box with top-left corner `(a, b)`. -/
theorem boxScan_rule (check : Int) (board : Board) (a b : Nat) :
    ((∀ n, n < 9 → cellOK check (boxVal board a b) n) →
      ∃ sq', cfor a (a + 3) 1 (fun i square =>
          cfor b (b + 3) 1 (fun j square => scanCell check (board i j) square) square)
          (fun _ => 0) = .ok sq') ∧
    (¬ (∀ n, n < 9 → cellOK check (boxVal board a b) n) →
      cfor a (a + 3) 1 (fun i square =>
          cfor b (b + 3) 1 (fun j square => scanCell check (board i j) square) square)
          (fun _ => 0) = .error false) := by
  -- the scan of one row of the box
  have row : ∀ i sq, a ≤ i → i < a + 3 → Seen (boxVal board a b) (3 * (i - a)) sq →
      ((∀ j, b ≤ j → j < b + 3 → cellOK check (boxVal board a b) (3 * (i - a) + (j - b))) →
        ∃ sq', cfor b (b + 3) 1 (fun j square => scanCell check (board i j) square) sq = .ok sq'
          ∧ Seen (boxVal board a b) (3 * (i + 1 - a)) sq') ∧
      (¬ (∀ j, b ≤ j → j < b + 3 → cellOK check (boxVal board a b) (3 * (i - a) + (j - b))) →
        cfor b (b + 3) 1 (fun j square => scanCell check (board i j) square) sq
          = .error false) := by
    intro i sq hai hia hS
    have hcell : ∀ j, b ≤ j → j < b + 3 →
        board i j = boxVal board a b (3 * (i - a) + (j - b)) := by
      intro j hbj hjb
      unfold boxVal
      have e1 : a + (3 * (i - a) + (j - b)) / 3 = i := by omega
      have e2 : b + (3 * (i - a) + (j - b)) % 3 = j := by omega
      rw [e1, e2]
    have key := cfor_rule b (b + 3) (fun j square => scanCell check (board i j) square)
      (fun j sq => Seen (boxVal board a b) (3 * (i - a) + (j - b)) sq)
      (fun j => cellOK check (boxVal board a b) (3 * (i - a) + (j - b))) sq (by omega)
      (by simpa using hS) ?_ ?_
    · constructor
      · intro h
        obtain ⟨sq', h1, h2⟩ := key.1 h
        refine ⟨sq', h1, ?_⟩
        have e : 3 * (i - a) + (b + 3 - b) = 3 * (i + 1 - a) := by omega
        rw [e] at h2
        exact h2
      · exact key.2
    · intro j s hbj hjb hI hP
      have e : 3 * (i - a) + (j + 1 - b) = 3 * (i - a) + (j - b) + 1 := by omega
      show ∃ s', scanCell check (board i j) s = .ok s' ∧
        Seen (boxVal board a b) (3 * (i - a) + (j + 1 - b)) s'
      rw [hcell j hbj hjb, e]
      exact scanCell_ok check _ _ s hI hP
    · intro j s hbj hjb hI hP
      show scanCell check (board i j) s = .error false
      rw [hcell j hbj hjb]
      exact scanCell_bad check _ _ s hI hP
  have key := cfor_rule a (a + 3) (fun i square =>
          cfor b (b + 3) 1 (fun j square => scanCell check (board i j) square) square)
    (fun i sq => Seen (boxVal board a b) (3 * (i - a)) sq)
    (fun i => ∀ j, b ≤ j → j < b + 3 → cellOK check (boxVal board a b) (3 * (i - a) + (j - b)))
    (fun _ => 0) (by omega) ?_
    (fun i s hai hia hI hP => (row i s hai hia hI).1 hP)
    (fun i s hai hia hI hP => (row i s hai hia hI).2 hP)
  · constructor
    · intro h
      obtain ⟨sq', h1, _⟩ := key.1 (fun i hai hia j hbj hjb => h _ (by omega))
      exact ⟨sq', h1⟩
    · intro h
      apply key.2
      intro h'
      apply h
      intro n hn
      have := h' (a + n / 3) (by omega) (by omega) (b + n % 3) (by omega) (by omega)
      have e : 3 * (a + n / 3 - a) + (b + n % 3 - b) = n := by omega
      rw [e] at this
      exact this
  · intro v
    simp

theorem cfor_0_7_3 {σ ρ : Type} (body : Nat → σ → Except ρ σ) (s : σ) :
    cfor 0 7 3 body s =
      match body 0 s with
      | .error r => .error r
      | .ok s1 =>
        match body 3 s1 with
        | .error r => .error r
        | .ok s2 => body 6 s2 := by
  simp only [cfor, cforGo]
  cases body 0 s with
  | error r => simp
  | ok s1 =>
    simp
    cases body 3 s1 with
    | error r => simp
    | ok s2 =>
      simp
      cases body 6 s2 <;> simp

theorem checkSquares_iff (board : Board) (check : Int) :
    checkSquares board check = true ↔
      ∀ a, a ∈ [0, 3, 6] → ∀ b, b ∈ [0, 3, 6] → boxOK check board a b := by
  have box : ∀ a b, (boxOK check board a b →
      ∃ sq', cfor a (a + 3) 1 (fun i square =>
          cfor b (b + 3) 1 (fun j square => scanCell check (board i j) square) square)
          (fun _ => 0) = .ok sq') ∧
    (¬ boxOK check board a b →
      cfor a (a + 3) 1 (fun i square =>
          cfor b (b + 3) 1 (fun j square => scanCell check (board i j) square) square)
          (fun _ => 0) = .error false) := fun a b => boxScan_rule check board a b
  have band : ∀ a (sq : Int → Int),
      ((∀ b, b ∈ [0, 3, 6] → boxOK check board a b) →
        ∃ sq', cfor 0 7 3 (fun b _square =>
          let square : Int → Int := fun _ => 0
          cfor a (a + 3) 1 (fun i square =>
            cfor b (b + 3) 1 (fun j square => scanCell check (board i j) square) square)
            square) sq = .ok sq') ∧
      (¬ (∀ b, b ∈ [0, 3, 6] → boxOK check board a b) →
        cfor 0 7 3 (fun b _square =>
          let square : Int → Int := fun _ => 0
          cfor a (a + 3) 1 (fun i square =>
            cfor b (b + 3) 1 (fun j square => scanCell check (board i j) square) square)
            square) sq = .error false) := by
    intro a sq
    rw [cfor_0_7_3]
    by_cases h0 : boxOK check board a 0
    · obtain ⟨s0, e0⟩ := (box a 0).1 h0
      by_cases h3 : boxOK check board a 3
      · obtain ⟨s3, e3⟩ := (box a 3).1 h3
        by_cases h6 : boxOK check board a 6
        · obtain ⟨s6, e6⟩ := (box a 6).1 h6
          simp only [e0, e3, e6]
          refine ⟨fun _ => ⟨s6, rfl⟩, fun h => absurd ?_ h⟩
          intro b hb
          simp only [List.mem_cons, List.mem_singleton, List.not_mem_nil, or_false] at hb
          rcases hb with rfl | rfl | rfl <;> assumption
        · have e6 := (box a 6).2 h6
          simp only [e0, e3, e6]
          exact ⟨fun h => absurd (h 6 (by simp)) h6, fun _ => trivial⟩
      · have e3 := (box a 3).2 h3
        simp only [e0, e3]
        exact ⟨fun h => absurd (h 3 (by simp)) h3, fun _ => trivial⟩
    · have e0 := (box a 0).2 h0
      simp only [e0]
      exact ⟨fun h => absurd (h 0 (by simp)) h0, fun _ => trivial⟩
  unfold checkSquares
  rw [cfor_0_7_3]
  by_cases h0 : ∀ b, b ∈ [0, 3, 6] → boxOK check board 0 b
  · obtain ⟨s0, e0⟩ := (band 0 (fun _ => 0)).1 h0
    by_cases h3 : ∀ b, b ∈ [0, 3, 6] → boxOK check board 3 b
    · obtain ⟨s3, e3⟩ := (band 3 s0).1 h3
      by_cases h6 : ∀ b, b ∈ [0, 3, 6] → boxOK check board 6 b
      · obtain ⟨s6, e6⟩ := (band 6 s3).1 h6
        simp only [e0, e3, e6, returned, true_iff]
        intro a ha
        simp only [List.mem_cons, List.mem_singleton, List.not_mem_nil, or_false] at ha
        rcases ha with rfl | rfl | rfl <;> assumption
      · have e6 := (band 6 s3).2 h6
        simp only [e0, e3, e6, returned, Bool.false_eq_true, false_iff]
        exact fun h => h6 (h 6 (by simp))
    · have e3 := (band 3 s0).2 h3
      simp only [e0, e3, returned, Bool.false_eq_true, false_iff]
      exact fun h => h3 (h 3 (by simp))
  · have e0 := (band 0 (fun _ => 0)).2 h0
    simp only [e0, returned, Bool.false_eq_true, false_iff]
    exact fun h => h0 (h 0 (by simp))

/-! ## Units: positional and counting views -/

theorem mem_unitVals (val : Nat → Int) (v : Int) :
    v ∈ unitVals val ↔ ∃ p, p < 9 ∧ val p = v := by
  simp [unitVals]

theorem nodup_unitVals (val : Nat → Int) :
    (unitVals val).Nodup ↔ ∀ p, p < 9 → ∀ q, q < 9 → p ≠ q → val p ≠ val q := by
  unfold unitVals
  rw [List.nodup_map_iff_inj_on (List.nodup_range 9)]
  constructor
  · intro h p hp q hq hpq heq
    exact hpq (h p (List.mem_range.mpr hp) q (List.mem_range.mpr hq) heq)
  · intro h p hp q hq heq
    by_contra hpq
    exact h p (List.mem_range.mp hp) q (List.mem_range.mp hq) hpq heq

theorem mem_digits (d : Int) : d ∈ digits ↔ 1 ≤ d ∧ d ≤ 9 := by
  simp only [digits, List.mem_cons, List.mem_singleton, List.not_mem_nil, or_false]
  omega

/-- A duplicate-free unit without blanks whose values lie in `0..9` holds every digit. -/
theorem digits_subset_of_nodup (val : Nat → Int)
    (hr : ∀ p, p < 9 → 0 ≤ val p ∧ val p ≤ 9)
    (hz : ∀ p, p < 9 → val p ≠ 0)
    (hn : (unitVals val).Nodup) : ∀ d, d ∈ digits → d ∈ unitVals val := by
  have hsub : (unitVals val).toFinset ⊆ digits.toFinset := by
    intro v hv
    rw [List.mem_toFinset] at hv ⊢
    obtain ⟨p, hp, rfl⟩ := (mem_unitVals val v).mp hv
    rw [mem_digits]
    have := hr p hp
    have := hz p hp
    omega
  have hcard : digits.toFinset.card ≤ (unitVals val).toFinset.card := by
    rw [List.toFinset_card_of_nodup hn]
    have : (unitVals val).length = 9 := by simp [unitVals]
    rw [this]
    decide
  have heq := Finset.eq_of_subset_of_card_le hsub hcard
  intro d hd
  have : d ∈ digits.toFinset := List.mem_toFinset.mpr hd
  rw [← heq] at this
  exact List.mem_toFinset.mp this

/-- For a unit with values in `0..9`: it contains each digit exactly once and no blank iff
no cell is blank and no two cells are equal. -/
theorem unitComplete_iff (val : Nat → Int) (hr : ∀ p, p < 9 → 0 ≤ val p ∧ val p ≤ 9) :
    unitComplete val ↔
      (∀ p, p < 9 → val p ≠ 0) ∧ (∀ p, p < 9 → ∀ q, q < 9 → p ≠ q → val p ≠ val q) := by
  constructor
  · rintro ⟨hc, h0⟩
    have hz : ∀ p, p < 9 → val p ≠ 0 := by
      intro p hp h
      exact h0 ((mem_unitVals val 0).mpr ⟨p, hp, h⟩)
    refine ⟨hz, (nodup_unitVals val).mp ?_⟩
    rw [List.nodup_iff_count_le_one]
    intro a
    by_cases ha : a ∈ digits
    · exact le_of_eq (hc a ha)
    · have : a ∉ unitVals val := by
        intro hmem
        obtain ⟨p, hp, rfl⟩ := (mem_unitVals val a).mp hmem
        apply ha
        rw [mem_digits]
        have := hr p hp
        have := hz p hp
        omega
      rw [List.count_eq_zero_of_not_mem this]
      omega
  · rintro ⟨hz, hinj⟩
    have hn := (nodup_unitVals val).mpr hinj
    constructor
    · intro d hd
      exact List.count_eq_one_of_mem hn (digits_subset_of_nodup val hr hz hn d hd)
    · intro h
      obtain ⟨p, hp, hp0⟩ := (mem_unitVals val 0).mp h
      exact hz p hp hp0

theorem strict_line_iff (val : Nat → Int) :
    (∀ j, j < 9 → ∀ k, k < j → ¬ clash 0 (val k) (val j)) ↔
      ∀ p, p < 9 → ∀ q, q < 9 → p ≠ q → val p ≠ val q := by
  unfold clash
  constructor
  · intro h p hp q hq hpq heq
    rcases Nat.lt_or_gt_of_ne hpq with hlt | hlt
    · exact h q hq p hlt (Or.inr ⟨by decide, heq⟩)
    · exact h p hp q hlt (Or.inr ⟨by decide, heq.symm⟩)
  · intro h j hj k hk hc
    rcases hc with ⟨h1, _⟩ | ⟨_, heq⟩
    · exact absurd h1 (by decide)
    · exact h k (by omega) j hj (by omega) heq

theorem soft_line_iff (val : Nat → Int) :
    (∀ j, j < 9 → ∀ k, k < j → ¬ clash 1 (val k) (val j)) ↔
      ¬ ∃ p, p < 9 ∧ ∃ q, q < 9 ∧ p ≠ q ∧ val p = val q ∧ val p ≠ 0 := by
  unfold clash
  constructor
  · rintro h ⟨p, hp, q, hq, hpq, heq, hne⟩
    rcases Nat.lt_or_gt_of_ne hpq with hlt | hlt
    · exact h q hq p hlt (Or.inl ⟨rfl, heq, hne⟩)
    · exact h p hp q hlt (Or.inl ⟨rfl, heq.symm, by rw [← heq]; exact hne⟩)
  · intro h j hj k hk hc
    rcases hc with ⟨_, heq, hne⟩ | ⟨h1, _⟩
    · exact h ⟨k, by omega, j, hj, by omega, heq, hne⟩
    · exact absurd rfl h1

theorem strict_box_iff (val : Nat → Int) :
    (∀ n, n < 9 → cellOK 0 val n) ↔
      (∀ p, p < 9 → val p ≠ 0) ∧ (∀ p, p < 9 → ∀ q, q < 9 → p ≠ q → val p ≠ val q) := by
  unfold cellOK
  constructor
  · intro h
    refine ⟨fun p hp h0 => (h p hp).2 ⟨by decide, Or.inl h0⟩, ?_⟩
    intro p hp q hq hpq heq
    rcases Nat.lt_or_gt_of_ne hpq with hlt | hlt
    · exact (h q hq).2 ⟨by decide, Or.inr ⟨p, hlt, heq⟩⟩
    · exact (h p hp).2 ⟨by decide, Or.inr ⟨q, hlt, heq.symm⟩⟩
  · rintro ⟨hz, hinj⟩ n hn
    refine ⟨fun h => absurd h.1 (by decide), ?_⟩
    rintro ⟨_, h0 | ⟨p, hp, heq⟩⟩
    · exact hz n hn h0
    · exact hinj p (by omega) n hn (by omega) heq

theorem soft_box_iff (val : Nat → Int) :
    (∀ n, n < 9 → cellOK 1 val n) ↔
      ¬ ∃ p, p < 9 ∧ ∃ q, q < 9 ∧ p ≠ q ∧ val p = val q ∧ val p ≠ 0 := by
  unfold cellOK
  constructor
  · rintro h ⟨p, hp, q, hq, hpq, heq, hne⟩
    rcases Nat.lt_or_gt_of_ne hpq with hlt | hlt
    · exact (h q hq).1 ⟨rfl, by rw [← heq]; exact hne, p, hlt, heq⟩
    · exact (h p hp).1 ⟨rfl, hne, q, hlt, heq.symm⟩
  · intro h n hn
    refine ⟨?_, fun h1 => absurd rfl h1.1⟩
    rintro ⟨_, hne, p, hp, heq⟩
    exact h ⟨p, by omega, n, hn, by omega, heq, by rw [heq]; exact hne⟩

/-! ## The checks in terms of cells -/

theorem boxes_iff (Q : Nat → Nat → Prop) :
    (∀ a, a ∈ [0, 3, 6] → ∀ b, b ∈ [0, 3, 6] → Q a b) ↔
      ∀ i, i < 3 → ∀ j, j < 3 → Q (3 * i) (3 * j) := by
  constructor
  · intro h i hi j hj
    apply h
    · simp only [List.mem_cons, List.mem_singleton, List.not_mem_nil, or_false]; omega
    · simp only [List.mem_cons, List.mem_singleton, List.not_mem_nil, or_false]; omega
  · intro h a ha b hb
    simp only [List.mem_cons, List.mem_singleton, List.not_mem_nil, or_false] at ha hb
    rcases ha with rfl | rfl | rfl <;> rcases hb with rfl | rfl | rfl
    · exact h 0 (by omega) 0 (by omega)
    · exact h 0 (by omega) 1 (by omega)
    · exact h 0 (by omega) 2 (by omega)
    · exact h 1 (by omega) 0 (by omega)
    · exact h 1 (by omega) 1 (by omega)
    · exact h 1 (by omega) 2 (by omega)
    · exact h 2 (by omega) 0 (by omega)
    · exact h 2 (by omega) 1 (by omega)
    · exact h 2 (by omega) 2 (by omega)

/-- The cell `(r, c)` is the cell number `3 * (r % 3) + c % 3` of its box. -/
theorem boxVal_cell (b : Board) (r c i j : Nat) (hi : r / 3 = i) (hj : c / 3 = j) :
    boxVal b (3 * i) (3 * j) (3 * (r % 3) + c % 3) = b r c := by
  unfold boxVal
  have e1 : 3 * i + (3 * (r % 3) + c % 3) / 3 = r := by omega
  have e2 : 3 * j + (3 * (r % 3) + c % 3) % 3 = c := by omega
  rw [e1, e2]

theorem checkRows_soft (b : Board) :
    checkRows b 1 = true ↔
      ¬ ∃ r, r < 9 ∧ ∃ c1, c1 < 9 ∧ ∃ c2, c2 < 9 ∧ sameNonzero b r c1 r c2 := by
  rw [checkRows_iff]
  constructor
  · rintro h ⟨r, hr, c1, hc1, c2, hc2, hne, heq, hnz⟩
    refine (soft_line_iff (fun p => b r p)).mp (h r hr) ⟨c1, hc1, c2, hc2, ?_, heq, hnz⟩
    rcases hne with h1 | h1
    · exact absurd rfl h1
    · exact h1
  · intro h r hr
    refine (soft_line_iff (fun p => b r p)).mpr ?_
    rintro ⟨p, hp, q, hq, hpq, heq, hnz⟩
    exact h ⟨r, hr, p, hp, q, hq, Or.inr hpq, heq, hnz⟩

theorem checkColumns_soft (b : Board) :
    checkColumns b 1 = true ↔
      ¬ ∃ c, c < 9 ∧ ∃ r1, r1 < 9 ∧ ∃ r2, r2 < 9 ∧ sameNonzero b r1 c r2 c := by
  rw [checkColumns_iff]
  constructor
  · rintro h ⟨c, hc, r1, hr1, r2, hr2, hne, heq, hnz⟩
    refine (soft_line_iff (fun p => b p c)).mp (h c hc) ⟨r1, hr1, r2, hr2, ?_, heq, hnz⟩
    rcases hne with h1 | h1
    · exact h1
    · exact absurd rfl h1
  · intro h c hc
    refine (soft_line_iff (fun p => b p c)).mpr ?_
    rintro ⟨p, hp, q, hq, hpq, heq, hnz⟩
    exact h ⟨c, hc, p, hp, q, hq, Or.inl hpq, heq, hnz⟩

theorem checkSquares_soft (b : Board) :
    checkSquares b 1 = true ↔
      ¬ ∃ r1, r1 < 9 ∧ ∃ c1, c1 < 9 ∧ ∃ r2, r2 < 9 ∧ ∃ c2, c2 < 9 ∧
          r1 / 3 = r2 / 3 ∧ c1 / 3 = c2 / 3 ∧ sameNonzero b r1 c1 r2 c2 := by
  rw [checkSquares_iff, boxes_iff]
  constructor
  · rintro h ⟨r1, hr1, c1, hc1, r2, hr2, c2, hc2, hr, hc, hne, heq, hnz⟩
    have hbox := (soft_box_iff (boxVal b (3 * (r1 / 3)) (3 * (c1 / 3)))).mp
      (h (r1 / 3) (by omega) (c1 / 3) (by omega))
    apply hbox
    refine ⟨3 * (r1 % 3) + c1 % 3, by omega, 3 * (r2 % 3) + c2 % 3, by omega, ?_, ?_, ?_⟩
    · rcases hne with h1 | h1 <;> omega
    · rw [boxVal_cell b r1 c1 _ _ rfl rfl, boxVal_cell b r2 c2 _ _ hr.symm hc.symm]
      exact heq
    · rw [boxVal_cell b r1 c1 _ _ rfl rfl]
      exact hnz
  · intro h i hi j hj
    refine (soft_box_iff (boxVal b (3 * i) (3 * j))).mpr ?_
    rintro ⟨p, hp, q, hq, hpq, heq, hnz⟩
    apply h
    refine ⟨3 * i + p / 3, by omega, 3 * j + p % 3, by omega, 3 * i + q / 3, by omega,
      3 * j + q % 3, by omega, by omega, by omega, ?_, heq, hnz⟩
    by_contra hcon
    simp only [not_or, not_not] at hcon
    omega

theorem checkRows_strict (b : Board) :
    checkRows b 0 = true ↔
      ∀ r, r < 9 → ∀ p, p < 9 → ∀ q, q < 9 → p ≠ q → b r p ≠ b r q := by
  rw [checkRows_iff]
  constructor
  · intro h r hr
    exact (strict_line_iff (fun p => b r p)).mp (h r hr)
  · intro h r hr
    exact (strict_line_iff (fun p => b r p)).mpr (h r hr)

theorem checkColumns_strict (b : Board) :
    checkColumns b 0 = true ↔
      ∀ c, c < 9 → ∀ p, p < 9 → ∀ q, q < 9 → p ≠ q → b p c ≠ b q c := by
  rw [checkColumns_iff]
  constructor
  · intro h c hc
    exact (strict_line_iff (fun p => b p c)).mp (h c hc)
  · intro h c hc
    exact (strict_line_iff (fun p => b p c)).mpr (h c hc)

theorem checkSquares_strict (b : Board) :
    checkSquares b 0 = true ↔
      ∀ i, i < 3 → ∀ j, j < 3 →
        (∀ p, p < 9 → boxVal b (3 * i) (3 * j) p ≠ 0) ∧
        (∀ p, p < 9 → ∀ q, q < 9 → p ≠ q →
          boxVal b (3 * i) (3 * j) p ≠ boxVal b (3 * i) (3 * j) q) := by
  rw [checkSquares_iff, boxes_iff]
  constructor
  · intro h i hi j hj
    exact (strict_box_iff _).mp (h i hi j hj)
  · intro h i hi j hj
    exact (strict_box_iff _).mpr (h i hi j hj)

/-- A strict box check that passes leaves no blank anywhere on the grid. -/
theorem no_blank_of_checkSquares (b : Board) (h : checkSquares b 0 = true) :
    ∀ r, r < 9 → ∀ c, c < 9 → b r c ≠ 0 := by
  intro r hr c hc
  have := ((checkSquares_strict b).mp h (r / 3) (by omega) (c / 3) (by omega)).1
    (3 * (r % 3) + c % 3) (by omega)
  rw [boxVal_cell b r c _ _ rfl rfl] at this
  exact this

theorem wonGame_flag (s : Game) : (wonGame s).1 = wonFlag s.board := by
  unfold wonGame wonFlag
  split
  · rename_i h; simp [h]
  · rename_i h; simp only [Bool.not_eq_true] at h; simp [h]

theorem setCell_inRange (b : Board) (h : InRange b) (r c : Nat) (v : Int)
    (hv : 0 ≤ v ∧ v ≤ 9) : InRange (setCell b r c v) := by
  intro i hi j hj
  unfold setCell
  split
  · exact hv
  · exact h i hi j hj

/-- The three strict checks pass together iff the grid is solved in the sense of the rules. -/
theorem strict_checks_iff_solved (b : Board) (h : InRange b) :
    (checkColumns b 0 = true ∧ checkRows b 0 = true ∧ checkSquares b 0 = true) ↔ Solved b := by
  have hbox : ∀ i, i < 3 → ∀ j, j < 3 → ∀ p, p < 9 →
      0 ≤ boxVal b (3 * i) (3 * j) p ∧ boxVal b (3 * i) (3 * j) p ≤ 9 := by
    intro i hi j hj p hp
    exact h _ (by omega) _ (by omega)
  constructor
  · rintro ⟨hc, hr, hs⟩
    have hz := no_blank_of_checkSquares b hs
    refine ⟨fun r hr' => ?_, fun c hc' => ?_, fun i hi j hj => ?_⟩
    · exact (unitComplete_iff _ (fun p hp => h r hr' p hp)).mpr
        ⟨fun p hp => hz r hr' p hp, (checkRows_strict b).mp hr r hr'⟩
    · exact (unitComplete_iff _ (fun p hp => h p hp c hc')).mpr
        ⟨fun p hp => hz p hp c hc', (checkColumns_strict b).mp hc c hc'⟩
    · exact (unitComplete_iff _ (hbox i hi j hj)).mpr ((checkSquares_strict b).mp hs i hi j hj)
  · rintro ⟨hr, hc, hs⟩
    refine ⟨?_, ?_, ?_⟩
    · exact (checkColumns_strict b).mpr
        (fun c hc' => ((unitComplete_iff _ (fun p hp => h p hp c hc')).mp (hc c hc')).2)
    · exact (checkRows_strict b).mpr
        (fun r hr' => ((unitComplete_iff _ (fun p hp => h r hr' p hp)).mp (hr r hr')).2)
    · exact (checkSquares_strict b).mpr
        (fun i hi j hj => (unitComplete_iff _ (hbox i hi j hj)).mp (hs i hi j hj))

/-! ## C1, C2: what the checks decide -/

theorem sameNonzero_of_blanked (b : Board) (r c r1 c1 r2 c2 : Nat)
    (h : sameNonzero (setCell b r c 0) r1 c1 r2 c2) : sameNonzero b r1 c1 r2 c2 := by
  obtain ⟨hne, heq, hnz⟩ := h
  have h1 : setCell b r c 0 r1 c1 = b r1 c1 := by
    unfold setCell at hnz ⊢
    split
    · rename_i hh; rw [if_pos hh] at hnz; exact absurd rfl hnz
    · rfl
  have h2 : setCell b r c 0 r2 c2 = b r2 c2 := by
    rw [heq] at hnz
    unfold setCell at hnz ⊢
    split
    · rename_i hh; rw [if_pos hh] at hnz; exact absurd rfl hnz
    · rfl
  refine ⟨hne, ?_, ?_⟩
  · rw [← h1, ← h2]; exact heq
  · rw [← h1]; exact hnz

/-- C1: on a grid with cells in 0..9, `wonGame` returns true iff every row, column and box
holds each digit 1..9 exactly once with no blank; and replacing one cell of a solved grid
by a different value in 0..9 makes it return false. -/
theorem wonGame_iff_solved (s : Game) (h : InRange s.board) :
    ((wonGame s).1 = true ↔ Solved s.board) ∧
    (Solved s.board → ∀ r, r < 9 → ∀ c, c < 9 → ∀ v : Int, 0 ≤ v → v ≤ 9 → v ≠ s.board r c →
      (wonGame { s with board := setCell s.board r c v }).1 = false) := by
  have flag : ∀ t : Game, InRange t.board → ((wonGame t).1 = true ↔ Solved t.board) := by
    intro t ht
    rw [wonGame_flag, ← strict_checks_iff_solved t.board ht]
    simp only [wonFlag, Bool.and_eq_true, and_assoc]
  refine ⟨flag s h, ?_⟩
  intro hsol r hr c hc v hv0 hv9 hne
  by_contra hwon
  simp only [Bool.not_eq_false] at hwon
  have hin' : InRange (setCell s.board r c v) := setCell_inRange s.board h r c v ⟨hv0, hv9⟩
  have hsol' : Solved (setCell s.board r c v) :=
    (flag { s with board := setCell s.board r c v } hin').mp hwon
  -- the old value of the cell is a digit, so it still occurs in row `r` of the new grid
  have hrow := (unitComplete_iff (fun p => s.board r p) (fun p hp => h r hr p hp)).mp (hsol.1 r hr)
  have hd : s.board r c ∈ digits := by
    rw [mem_digits]
    have := h r hr c hc
    have := hrow.1 c hc
    omega
  have hcount := (hsol'.1 r hr).1 (s.board r c) hd
  have hmem : s.board r c ∈ unitVals (fun p => setCell s.board r c v r p) := by
    apply List.count_pos_iff.mp
    omega
  obtain ⟨q, hq, hqv⟩ := (mem_unitVals _ _).mp hmem
  have hqc : q ≠ c := by
    intro hqc
    subst hqc
    simp [setCell] at hqv
    exact hne hqv
  have : s.board r q = s.board r c := by
    simpa [setCell, hqc] using hqv
  exact hrow.2 q hq c hc hqc this

/-- C2: a soft check fails exactly when its kind of unit holds one non-zero value at two
different cells, and blanking a cell never makes a passing soft check fail. -/
theorem soft_checks_flag_nonzero_duplicates (b : Board) (h : InRange b) :
    (checkRows b 1 = false ↔
      ∃ r, r < 9 ∧ ∃ c1, c1 < 9 ∧ ∃ c2, c2 < 9 ∧ sameNonzero b r c1 r c2) ∧
    (checkColumns b 1 = false ↔
      ∃ c, c < 9 ∧ ∃ r1, r1 < 9 ∧ ∃ r2, r2 < 9 ∧ sameNonzero b r1 c r2 c) ∧
    (checkSquares b 1 = false ↔
      ∃ r1, r1 < 9 ∧ ∃ c1, c1 < 9 ∧ ∃ r2, r2 < 9 ∧ ∃ c2, c2 < 9 ∧
        r1 / 3 = r2 / 3 ∧ c1 / 3 = c2 / 3 ∧ sameNonzero b r1 c1 r2 c2) ∧
    (∀ r c, (checkRows b 1 = true → checkRows (setCell b r c 0) 1 = true) ∧
      (checkColumns b 1 = true → checkColumns (setCell b r c 0) 1 = true) ∧
      (checkSquares b 1 = true → checkSquares (setCell b r c 0) 1 = true)) := by
  -- `h` marks the boards on which the C code is defined (`square` has ten entries);
  -- the characterisations below hold for the embedding without it
  have _hrange := h
  refine ⟨?_, ?_, ?_, ?_⟩
  · rw [← Bool.not_eq_true, checkRows_soft, not_not]
  · rw [← Bool.not_eq_true, checkColumns_soft, not_not]
  · rw [← Bool.not_eq_true, checkSquares_soft, not_not]
  · intro r c
    refine ⟨?_, ?_, ?_⟩
    · rw [checkRows_soft, checkRows_soft]
      rintro hb ⟨r', hr', c1, hc1, c2, hc2, hs⟩
      exact hb ⟨r', hr', c1, hc1, c2, hc2, sameNonzero_of_blanked b r c _ _ _ _ hs⟩
    · rw [checkColumns_soft, checkColumns_soft]
      rintro hb ⟨c', hc', r1, hr1, r2, hr2, hs⟩
      exact hb ⟨c', hc', r1, hr1, r2, hr2, sameNonzero_of_blanked b r c _ _ _ _ hs⟩
    · rw [checkSquares_soft, checkSquares_soft]
      rintro hb ⟨r1, hr1, c1, hc1, r2, hr2, c2, hc2, e1, e2, hs⟩
      exact hb ⟨r1, hr1, c1, hc1, r2, hr2, c2, hc2, e1, e2,
        sameNonzero_of_blanked b r c _ _ _ _ hs⟩

set_option maxRecDepth 100000 in
theorem wonGame_iff_solved_witness :
    InRange (gameOf solvedGrid solvedGrid 4 4).board ∧
    (((wonGame (gameOf solvedGrid solvedGrid 4 4)).1 = true ↔
        Solved (gameOf solvedGrid solvedGrid 4 4).board) ∧
      (Solved (gameOf solvedGrid solvedGrid 4 4).board →
        ∀ r, r < 9 → ∀ c, c < 9 → ∀ v : Int, 0 ≤ v → v ≤ 9 →
          v ≠ (gameOf solvedGrid solvedGrid 4 4).board r c →
          (wonGame { gameOf solvedGrid solvedGrid 4 4 with
            board := setCell (gameOf solvedGrid solvedGrid 4 4).board r c v }).1 = false)) :=
  ⟨by decide, wonGame_iff_solved (gameOf solvedGrid solvedGrid 4 4) (by decide)⟩

set_option maxRecDepth 100000 in
theorem soft_checks_flag_nonzero_duplicates_witness :
    InRange conflictGrid ∧
    ((checkRows conflictGrid 1 = false ↔
      ∃ r, r < 9 ∧ ∃ c1, c1 < 9 ∧ ∃ c2, c2 < 9 ∧ sameNonzero conflictGrid r c1 r c2) ∧
    (checkColumns conflictGrid 1 = false ↔
      ∃ c, c < 9 ∧ ∃ r1, r1 < 9 ∧ ∃ r2, r2 < 9 ∧ sameNonzero conflictGrid r1 c r2 c) ∧
    (checkSquares conflictGrid 1 = false ↔
      ∃ r1, r1 < 9 ∧ ∃ c1, c1 < 9 ∧ ∃ r2, r2 < 9 ∧ ∃ c2, c2 < 9 ∧
        r1 / 3 = r2 / 3 ∧ c1 / 3 = c2 / 3 ∧ sameNonzero conflictGrid r1 c1 r2 c2) ∧
    (∀ r c, (checkRows conflictGrid 1 = true → checkRows (setCell conflictGrid r c 0) 1 = true) ∧
      (checkColumns conflictGrid 1 = true →
        checkColumns (setCell conflictGrid r c 0) 1 = true) ∧
      (checkSquares conflictGrid 1 = true →
        checkSquares (setCell conflictGrid r c 0) 1 = true))) :=
  ⟨by decide, soft_checks_flag_nonzero_duplicates conflictGrid (by decide)⟩

/-! ## Loops without early exit -/

theorem cloopGo_rule {σ : Type} (body : Nat → σ → σ) (lo hi : Nat) (I : Nat → σ → Prop)
    (hbody : ∀ i s, lo ≤ i → i < hi → I i s → I (i + 1) (body i s)) :
    ∀ fuel i s, lo ≤ i → hi - i ≤ fuel → i ≤ hi → I i s →
      I hi (cloopGo body hi 1 fuel i s) := by
  intro fuel
  induction fuel with
  | zero =>
    intro i s _ hf hle h
    have : i = hi := by omega
    subst this
    exact h
  | succ fuel ih =>
    intro i s hlo hf hle h
    simp only [cloopGo]
    split
    · rename_i hlt
      exact ih (i + 1) _ (by omega) (by omega) (by omega) (hbody i s hlo hlt h)
    · have : i = hi := by omega
      subst this
      exact h

theorem cloop_rule {σ : Type} (lo hi : Nat) (body : Nat → σ → σ) (I : Nat → σ → Prop)
    (s : σ) (hle : lo ≤ hi) (h0 : I lo s)
    (hbody : ∀ i s, lo ≤ i → i < hi → I i s → I (i + 1) (body i s)) :
    I hi (cloop lo hi 1 body s) :=
  cloopGo_rule body lo hi I hbody _ _ s (Nat.le_refl _) (Nat.le_refl _) hle h0

/-- The two loops of `wonGame` write 9 into each of the 81 cells of `initialBoard`. -/
theorem lock_loops (s : Game) :
    cloop 0 9 1 (fun i s =>
      cloop 0 9 1 (fun j s => { s with initialBoard := setCell s.initialBoard j i 9 }) s) s
      = { s with initialBoard := lockAll s.initialBoard } := by
  have outer := cloop_rule 0 9 (fun i (t : Game) =>
      cloop 0 9 1 (fun j t => { t with initialBoard := setCell t.initialBoard j i 9 }) t)
    (fun i t => t = { s with initialBoard :=
      fun r c => if r < 9 ∧ c < i then 9 else s.initialBoard r c }) s (by omega) ?_ ?_
  · rw [outer]; rfl
  · show s = { s with initialBoard := fun r c => if r < 9 ∧ c < 0 then 9 else s.initialBoard r c }
    have : (fun r c => if r < 9 ∧ c < 0 then (9 : Int) else s.initialBoard r c)
        = s.initialBoard := by
      funext r c; simp
    rw [this]
  · intro i t _ hi ht
    have inner := cloop_rule 0 9
      (fun j (t : Game) => { t with initialBoard := setCell t.initialBoard j i 9 })
      (fun j u => u = { s with initialBoard :=
        fun r c => if (r < 9 ∧ c < i) ∨ (r < j ∧ c = i) then 9 else s.initialBoard r c })
      t (by omega) ?_ ?_
    · show cloop 0 9 1 _ t = _
      rw [inner]
      congr 1
      funext r c
      by_cases h1 : r < 9 ∧ c < i + 1
      · have h2 : (r < 9 ∧ c < i) ∨ (r < 9 ∧ c = i) := by omega
        rw [if_pos h1, if_pos h2]
      · have h2 : ¬ ((r < 9 ∧ c < i) ∨ (r < 9 ∧ c = i)) := by omega
        rw [if_neg h1, if_neg h2]
    · show t = _
      rw [ht]
      congr 1
      funext r c
      by_cases h1 : r < 9 ∧ c < i
      · rw [if_pos h1, if_pos (Or.inl h1)]
      · have h2 : ¬ ((r < 9 ∧ c < i) ∨ (r < 0 ∧ c = i)) := by omega
        rw [if_neg h1, if_neg h2]
    · intro j u _ hj hu
      show ({ u with initialBoard := setCell u.initialBoard j i 9 } : Game) = _
      rw [hu]
      congr 1
      funext r c
      show setCell _ j i 9 r c = _
      unfold setCell
      by_cases h0 : r = j ∧ c = i
      · have h2 : (r < 9 ∧ c < i) ∨ (r < j + 1 ∧ c = i) := by omega
        rw [if_pos h0, if_pos h2]
      · rw [if_neg h0]
        dsimp only
        by_cases h1 : (r < 9 ∧ c < i) ∨ (r < j ∧ c = i)
        · have h2 : (r < 9 ∧ c < i) ∨ (r < j + 1 ∧ c = i) := by omega
          rw [if_pos h1, if_pos h2]
        · have h2 : ¬ ((r < 9 ∧ c < i) ∨ (r < j + 1 ∧ c = i)) := by omega
          rw [if_neg h1, if_neg h2]

/-- The two loops of `load_board` copy the 81 cells of `board` into `initialBoard`. -/
theorem copy_loops (s : Game) :
    cloop 0 9 1 (fun i s =>
      cloop 0 9 1 (fun j s =>
        { s with initialBoard := setCell s.initialBoard j i (s.board j i) }) s) s
      = { s with initialBoard := copyAll s.initialBoard s.board } := by
  have outer := cloop_rule 0 9 (fun i (t : Game) =>
      cloop 0 9 1 (fun j t =>
        { t with initialBoard := setCell t.initialBoard j i (t.board j i) }) t)
    (fun i t => t = { s with initialBoard :=
      fun r c => if r < 9 ∧ c < i then s.board r c else s.initialBoard r c }) s (by omega) ?_ ?_
  · rw [outer]; rfl
  · show s = { s with initialBoard :=
      fun r c => if r < 9 ∧ c < 0 then s.board r c else s.initialBoard r c }
    have : (fun r c => if r < 9 ∧ c < 0 then s.board r c else s.initialBoard r c)
        = s.initialBoard := by
      funext r c; simp
    rw [this]
  · intro i t _ hi ht
    have inner := cloop_rule 0 9
      (fun j (t : Game) => { t with initialBoard := setCell t.initialBoard j i (t.board j i) })
      (fun j u => u = { s with initialBoard :=
        fun r c =>
          if (r < 9 ∧ c < i) ∨ (r < j ∧ c = i) then s.board r c else s.initialBoard r c })
      t (by omega) ?_ ?_
    · show cloop 0 9 1 _ t = _
      rw [inner]
      congr 1
      funext r c
      by_cases h1 : r < 9 ∧ c < i + 1
      · have h2 : (r < 9 ∧ c < i) ∨ (r < 9 ∧ c = i) := by omega
        rw [if_pos h1, if_pos h2]
      · have h2 : ¬ ((r < 9 ∧ c < i) ∨ (r < 9 ∧ c = i)) := by omega
        rw [if_neg h1, if_neg h2]
    · show t = _
      rw [ht]
      congr 1
      funext r c
      by_cases h1 : r < 9 ∧ c < i
      · rw [if_pos h1, if_pos (Or.inl h1)]
      · have h2 : ¬ ((r < 9 ∧ c < i) ∨ (r < 0 ∧ c = i)) := by omega
        rw [if_neg h1, if_neg h2]
    · intro j u _ hj hu
      show ({ u with initialBoard := setCell u.initialBoard j i (u.board j i) } : Game) = _
      rw [hu]
      congr 1
      funext r c
      show setCell _ j i (s.board j i) r c = _
      unfold setCell
      by_cases h0 : r = j ∧ c = i
      · have h2 : (r < 9 ∧ c < i) ∨ (r < j + 1 ∧ c = i) := by omega
        rw [if_pos h0, if_pos h2, h0.1, h0.2]
      · rw [if_neg h0]
        dsimp only
        by_cases h1 : (r < 9 ∧ c < i) ∨ (r < j ∧ c = i)
        · have h2 : (r < 9 ∧ c < i) ∨ (r < j + 1 ∧ c = i) := by omega
          rw [if_pos h1, if_pos h2]
        · have h2 : ¬ ((r < 9 ∧ c < i) ∨ (r < j + 1 ∧ c = i)) := by omega
          rw [if_neg h1, if_neg h2]

/-! ## What the drawing and banner routines leave alone -/

theorem lockAll_lockAll (g : Board) : lockAll (lockAll g) = lockAll g := by
  funext r c
  unfold lockAll
  split <;> rfl

theorem wonGame_state (s : Game) :
    (wonGame s).2 =
      if wonFlag s.board = true then
        { s with initialBoard := lockAll s.initialBoard,
                 screen := s.screen ++ [BannerOp.show "Congrats, you won!"] }
      else s := by
  unfold wonGame wonFlag
  split
  · simp only [lock_loops, show_banner]
  · rfl

theorem wonGame_won (s : Game) (h : wonFlag s.board = true) :
    wonGame s =
      (true,
        { s with
          initialBoard := lockAll s.initialBoard
          screen := s.screen ++ [BannerOp.show "Congrats, you won!"] }) := by
  have h1 := wonGame_flag s
  have h2 := wonGame_state s
  rw [h] at h1
  rw [if_pos h] at h2
  exact Prod.ext h1 h2

theorem wonGame_not_won (s : Game) (h : wonFlag s.board = false) : wonGame s = (false, s) := by
  have h1 := wonGame_flag s
  have h2 := wonGame_state s
  rw [h] at h1
  rw [if_neg (by simp [h])] at h2
  exact Prod.ext h1 h2

/-- The routine `draw_numbers` changes nothing but the screen and, with colours on a solved board,
the given grid (through `wonGame`). -/
theorem draw_numbers_state (s : Game) :
    draw_numbers s =
      { s with
        initialBoard :=
          if s.hasColors = true ∧ wonFlag s.board = true then lockAll s.initialBoard
          else s.initialBoard,
        screen := (draw_numbers s).screen } := by
  have cell : ∀ (t : Game) (n : Nat),
      t = { s with
        initialBoard :=
          if s.hasColors = true ∧ wonFlag s.board = true ∧ 0 < n then lockAll s.initialBoard
          else s.initialBoard,
        screen := t.screen } →
      (if t.hasColors then (wonGame t).2 else t) = { s with
        initialBoard :=
          if s.hasColors = true ∧ wonFlag s.board = true then lockAll s.initialBoard
          else s.initialBoard,
        screen := (if t.hasColors then (wonGame t).2 else t).screen } := by
    intro t n ht
    have hb : t.board = s.board := by rw [ht]
    have hc : t.hasColors = s.hasColors := by rw [ht]
    by_cases hcol : s.hasColors = true
    · by_cases hwon : wonFlag s.board = true
      · have hwt : wonFlag t.board = true := by rw [hb]; exact hwon
        have e := wonGame_won t hwt
        simp only [hc, hcol, if_true, e]
        rw [if_pos ⟨trivial, hwon⟩]
        have hib : lockAll t.initialBoard = lockAll s.initialBoard := by
          rw [ht]
          dsimp only
          split
          · exact lockAll_lockAll _
          · rfl
        rw [hib]
        rw [ht]
      · simp only [Bool.not_eq_true] at hwon
        have hwt : wonFlag t.board = false := by rw [hb]; exact hwon
        have e := wonGame_not_won t hwt
        simp only [hc, hcol, if_true, e]
        rw [ht]
        simp [hwon, hcol]
    · simp only [Bool.not_eq_true] at hcol
      simp only [hc, hcol, Bool.false_eq_true, if_false]
      rw [ht]
      simp [hcol]
  have inner : ∀ (i : Nat) (t : Game),
      t = { s with
        initialBoard :=
          if s.hasColors = true ∧ wonFlag s.board = true ∧ 0 < i then lockAll s.initialBoard
          else s.initialBoard,
        screen := t.screen } →
      cloop 0 9 1 (fun _j s => if s.hasColors then (wonGame s).2 else s) t = { s with
        initialBoard :=
          if s.hasColors = true ∧ wonFlag s.board = true then lockAll s.initialBoard
          else s.initialBoard,
        screen := (cloop 0 9 1 (fun _j s => if s.hasColors then (wonGame s).2 else s) t).screen } := by
    intro i t ht
    have r := cloop_rule 0 9 (fun _j (s : Game) => if s.hasColors then (wonGame s).2 else s)
      (fun j u => u = { s with
        initialBoard :=
          if s.hasColors = true ∧ wonFlag s.board = true ∧ 0 < i + j then lockAll s.initialBoard
          else s.initialBoard,
        screen := u.screen }) t (by omega) (by simpa using ht) ?_
    · have r' := r
      simp only [show 0 < i + 9 from by omega, and_true] at r'
      exact r'
    · intro j u _ _ hu
      have c := cell u (i + j) hu
      have hpos : 0 < i + (j + 1) := by omega
      simp only [hpos, and_true]
      exact c
  unfold draw_numbers
  have r := cloop_rule 0 9 (fun _i (s : Game) =>
      cloop 0 9 1 (fun _j s => if s.hasColors then (wonGame s).2 else s) s)
    (fun i u => u = { s with
        initialBoard :=
          if s.hasColors = true ∧ wonFlag s.board = true ∧ 0 < i then lockAll s.initialBoard
          else s.initialBoard,
        screen := u.screen }) s (by omega) (by simp) ?_
  · have r' := r
    simp only [show 0 < 9 from by omega, and_true] at r'
    exact r'
  · intro i u _ _ hu
    have c := inner i u hu
    have hpos : 0 < i + 1 := by omega
    simp only [hpos, and_true]
    exact c

theorem ite_show_banner (c : Bool) (t : Game) (b : String) :
    (if c = true then show_banner t b else t) =
      { t with screen := t.screen ++ if c = true then [BannerOp.show b] else [] } := by
  cases c <;> simp [show_banner]

/-- The routine `warning` only appends `show_banner` calls to the screen: the calls it makes, in order,
are `warningCalls` of the three soft checks. -/
theorem warning_eq (s : Game) :
    warning s = { s with screen := s.screen ++
      (warningCalls (checkColumns s.board 1) (checkRows s.board 1)
        (checkSquares s.board 1)).map BannerOp.show } := by
  unfold warning
  simp only [ite_show_banner]
  cases checkColumns s.board 1 <;> cases checkRows s.board 1 <;>
    cases checkSquares s.board 1 <;> simp [warningCalls]

theorem warning_state (s : Game) : warning s = { s with screen := (warning s).screen } := by
  rw [warning_eq]

/-! ## One iteration of the input loop, key by key -/

/-- After the cell was written: `draw_numbers`, the optional `hide_banner`, `wonGame` and
`warning` of the digit case. -/
theorem digit_tail (t : Game) :
    ∃ scr, warning (wonGame
        (if (checkColumns (draw_numbers t).board 1 || checkRows (draw_numbers t).board 1
            || checkSquares (draw_numbers t).board 1) = true
          then hide_banner (draw_numbers t) else draw_numbers t)).2 =
      { t with
        initialBoard := if wonFlag t.board = true then lockAll t.initialBoard else t.initialBoard,
        screen := scr } := by
  have hd := draw_numbers_state t
  generalize draw_numbers t = d at hd
  have hide : ∃ scr1, (if (checkColumns d.board 1 || checkRows d.board 1
            || checkSquares d.board 1) = true then hide_banner d else d) =
      { t with
        initialBoard :=
          if t.hasColors = true ∧ wonFlag t.board = true then lockAll t.initialBoard
          else t.initialBoard,
        screen := scr1 } := by
    split
    · refine ⟨d.screen ++ [BannerOp.hide], ?_⟩
      unfold hide_banner
      rw [hd]
    · exact ⟨d.screen, hd⟩
  obtain ⟨scr1, h1⟩ := hide
  rw [h1, wonGame_state, warning_state]
  by_cases hw : wonFlag t.board = true
  · by_cases hc : t.hasColors = true
    · simp only [hw, hc, and_self, if_true, lockAll_lockAll]
      exact ⟨_, rfl⟩
    · simp only [hw, hc, false_and, if_true, if_false]
      exact ⟨_, rfl⟩
  · simp only [hw, Bool.false_eq_true, and_false, if_false]
    exact ⟨_, rfl⟩

/-- After the cell was written: `draw_numbers`, the optional `hide_banner` and `warning`
of the undo case. -/
theorem undo_tail (t : Game) :
    ∃ scr, warning
        (if (checkColumns (draw_numbers t).board 1 || checkRows (draw_numbers t).board 1
            || checkSquares (draw_numbers t).board 1) = true
          then hide_banner (draw_numbers t) else draw_numbers t) =
      { t with
        initialBoard :=
          if t.hasColors = true ∧ wonFlag t.board = true then lockAll t.initialBoard
          else t.initialBoard,
        screen := scr } := by
  have hd := draw_numbers_state t
  generalize draw_numbers t = d at hd
  have hide : ∃ scr1, (if (checkColumns d.board 1 || checkRows d.board 1
            || checkSquares d.board 1) = true then hide_banner d else d) =
      { t with
        initialBoard :=
          if t.hasColors = true ∧ wonFlag t.board = true then lockAll t.initialBoard
          else t.initialBoard,
        screen := scr1 } := by
    split
    · refine ⟨d.screen ++ [BannerOp.hide], ?_⟩
      unfold hide_banner
      rw [hd]
    · exact ⟨d.screen, hd⟩
  obtain ⟨scr1, h1⟩ := hide
  rw [h1, warning_state]
  exact ⟨_, rfl⟩

/-- The digit case when the cell under the cursor is not given. -/
theorem step_digit_open (s : Game) (ch : Int) (h1 : 49 ≤ ch) (h2 : ch ≤ 57)
    (hg : s.initialBoard s.y s.x = 0) :
    ∃ scr, step s (.digit ch) = some
      { s with
        board := setCell s.board s.y s.x (ch - 48),
        prev0 := s.y, prev1 := s.x, prev2 := s.board s.y s.x,
        initialBoard :=
          if wonFlag (setCell s.board s.y s.x (ch - 48)) = true then lockAll s.initialBoard
          else s.initialBoard,
        screen := scr } := by
  obtain ⟨scr, h⟩ := digit_tail
    { s with board := setCell s.board s.y s.x (ch - 48),
             prev0 := s.y, prev1 := s.x, prev2 := s.board s.y s.x }
  refine ⟨scr, ?_⟩
  simp only [step, h1, h2, and_self, if_true, hg]
  exact congrArg some h

/-- The digit case when the cell under the cursor is given. -/
theorem step_digit_given (s : Game) (ch : Int) (h1 : 49 ≤ ch) (h2 : ch ≤ 57)
    (hg : s.initialBoard s.y s.x ≠ 0) :
    ∃ scr, step s (.digit ch) = some
      { s with
        initialBoard :=
          if wonFlag s.board = true then lockAll s.initialBoard else s.initialBoard,
        screen := scr } := by
  simp only [step, h1, h2, and_self, if_true, hg, if_false]
  rw [wonGame_state, warning_state]
  by_cases hw : wonFlag s.board = true
  · simp only [hw, if_true]
    exact ⟨_, rfl⟩
  · simp only [hw, Bool.false_eq_true, if_false]
    exact ⟨_, rfl⟩

/-- The clear case when the cell under the cursor is not given. -/
theorem step_clear_open (s : Game) (hg : s.initialBoard s.y s.x = 0) :
    ∃ scr, step s .clear = some
      { s with
        board := setCell s.board s.y s.x 0,
        prev0 := s.y, prev1 := s.x, prev2 := s.board s.y s.x,
        initialBoard :=
          if s.hasColors = true ∧ wonFlag (setCell s.board s.y s.x 0) = true
            then lockAll s.initialBoard
          else s.initialBoard,
        screen := scr } := by
  simp only [step, hg, if_true]
  rw [draw_numbers_state, warning_state]
  exact ⟨_, rfl⟩

/-- The clear case when the cell under the cursor is given. -/
theorem step_clear_given (s : Game) (hg : s.initialBoard s.y s.x ≠ 0) :
    ∃ scr, step s .clear = some { s with screen := scr } := by
  simp only [step, hg, if_false]
  rw [warning_state]
  exact ⟨_, rfl⟩

/-- The undo case with nothing recorded. -/
theorem step_undo_none (s : Game) (hp : s.prev0 = 10) : step s .undo = some s := by
  simp [step, hp]

/-- The undo case on a board that passes the win test. -/
theorem step_undo_won (s : Game) (hp : s.prev0 ≠ 10) (hw : wonFlag s.board = true) :
    ∃ scr, step s .undo = some { s with initialBoard := lockAll s.initialBoard, screen := scr } := by
  simp only [step, hp, ne_eq, not_false_eq_true, if_true, wonGame_won s hw]
  exact ⟨_, rfl⟩

/-- The undo case that writes the recorded value back. -/
theorem step_undo_write (s : Game) (hp : s.prev0 ≠ 10) (hw : wonFlag s.board = false) :
    ∃ scr, step s .undo = some
      { s with
        board := setCell s.board s.prev0 s.prev1 s.prev2,
        initialBoard :=
          if s.hasColors = true ∧ wonFlag (setCell s.board s.prev0 s.prev1 s.prev2) = true
            then lockAll s.initialBoard
          else s.initialBoard,
        screen := scr } := by
  obtain ⟨scr, h⟩ := undo_tail { s with board := setCell s.board s.prev0 s.prev1 s.prev2 }
  refine ⟨scr, ?_⟩
  simp only [step, hp, ne_eq, not_false_eq_true, if_true, wonGame_not_won s hw]
  exact congrArg some h

/-! ## C3, C6, C10: the write gate and undo -/

theorem setCell_restore (b : Board) (r c : Nat) (v : Int) :
    setCell (setCell b r c v) r c (b r c) = b := by
  funext i j
  unfold setCell
  by_cases h : i = r ∧ j = c
  · rw [if_pos h, h.1, h.2]
  · rw [if_neg h, if_neg h]

theorem setCell_twice (b : Board) (r c : Nat) (v : Int) :
    setCell (setCell b r c v) r c v = setCell b r c v := by
  funext i j
  unfold setCell
  by_cases h : i = r ∧ j = c
  · rw [if_pos h, if_pos h]
  · rw [if_neg h, if_neg h]

/-- A board with a blank inside the grid does not pass the win test. -/
theorem wonFlag_blank (b : Board) (r c : Nat) (hr : r < 9) (hc : c < 9) (h0 : b r c = 0) :
    wonFlag b = false := by
  by_contra h
  simp only [Bool.not_eq_false] at h
  unfold wonFlag at h
  simp only [Bool.and_eq_true] at h
  exact no_blank_of_checkSquares b h.2 r hr c hc h0

/-- C3: when the cell under the cursor is given, entering a digit 1..9 and clearing leave
every cell of the board as it was and do not touch the recorded move. -/
theorem given_cell_write_gate (s : Game) (hg : s.initialBoard s.y s.x ≠ 0) :
    (∀ ch : Int, 49 ≤ ch → ch ≤ 57 →
      ∃ s', step s (.digit ch) = some s' ∧ s'.board = s.board ∧
        s'.prev0 = s.prev0 ∧ s'.prev1 = s.prev1 ∧ s'.prev2 = s.prev2) ∧
    (∃ s', step s .clear = some s' ∧ s'.board = s.board ∧
        s'.prev0 = s.prev0 ∧ s'.prev1 = s.prev1 ∧ s'.prev2 = s.prev2) := by
  constructor
  · intro ch h1 h2
    obtain ⟨scr, h⟩ := step_digit_given s ch h1 h2 hg
    exact ⟨_, h, rfl, rfl, rfl, rfl⟩
  · obtain ⟨scr, h⟩ := step_clear_given s hg
    exact ⟨_, h, rfl, rfl, rfl, rfl⟩

theorem given_cell_write_gate_witness :
    (gameOf scenarioGrid scenarioGrid 0 0).initialBoard
        (gameOf scenarioGrid scenarioGrid 0 0).y (gameOf scenarioGrid scenarioGrid 0 0).x ≠ 0 ∧
    ((∀ ch : Int, 49 ≤ ch → ch ≤ 57 →
      ∃ s', step (gameOf scenarioGrid scenarioGrid 0 0) (.digit ch) = some s' ∧
        s'.board = (gameOf scenarioGrid scenarioGrid 0 0).board ∧
        s'.prev0 = (gameOf scenarioGrid scenarioGrid 0 0).prev0 ∧
        s'.prev1 = (gameOf scenarioGrid scenarioGrid 0 0).prev1 ∧
        s'.prev2 = (gameOf scenarioGrid scenarioGrid 0 0).prev2) ∧
    (∃ s', step (gameOf scenarioGrid scenarioGrid 0 0) .clear = some s' ∧
        s'.board = (gameOf scenarioGrid scenarioGrid 0 0).board ∧
        s'.prev0 = (gameOf scenarioGrid scenarioGrid 0 0).prev0 ∧
        s'.prev1 = (gameOf scenarioGrid scenarioGrid 0 0).prev1 ∧
        s'.prev2 = (gameOf scenarioGrid scenarioGrid 0 0).prev2)) :=
  ⟨by decide, given_cell_write_gate (gameOf scenarioGrid scenarioGrid 0 0) (by decide)⟩

/-- C10: a second undo right after an undo leaves the board as the first undo left it. -/
theorem undo_twice_same_board (s : Game) :
    ∃ s1 s2, step s .undo = some s1 ∧ step s1 .undo = some s2 ∧
      ∀ r c, s2.board r c = s1.board r c := by
  by_cases hp : s.prev0 = 10
  · exact ⟨s, s, step_undo_none s hp, step_undo_none s hp, fun _ _ => rfl⟩
  · by_cases hw : wonFlag s.board = true
    · obtain ⟨scr, h⟩ := step_undo_won s hp hw
      obtain ⟨scr2, h2⟩ := step_undo_won
        { s with initialBoard := lockAll s.initialBoard, screen := scr } hp hw
      exact ⟨_, _, h, h2, fun _ _ => rfl⟩
    · simp only [Bool.not_eq_true] at hw
      obtain ⟨scr, h⟩ := step_undo_write s hp hw
      refine ⟨_, ?_, h, ?_⟩
      · exact (step { s with
          board := setCell s.board s.prev0 s.prev1 s.prev2,
          initialBoard :=
            if s.hasColors = true ∧ wonFlag (setCell s.board s.prev0 s.prev1 s.prev2) = true
              then lockAll s.initialBoard
            else s.initialBoard,
          screen := scr } .undo).getD s
      · by_cases hw2 : wonFlag (setCell s.board s.prev0 s.prev1 s.prev2) = true
        · obtain ⟨scr2, h2⟩ := step_undo_won { s with
            board := setCell s.board s.prev0 s.prev1 s.prev2,
            initialBoard :=
              if s.hasColors = true ∧ wonFlag (setCell s.board s.prev0 s.prev1 s.prev2) = true
                then lockAll s.initialBoard
              else s.initialBoard,
            screen := scr } hp hw2
          rw [h2]
          exact ⟨rfl, fun _ _ => rfl⟩
        · simp only [Bool.not_eq_true] at hw2
          obtain ⟨scr2, h2⟩ := step_undo_write { s with
            board := setCell s.board s.prev0 s.prev1 s.prev2,
            initialBoard :=
              if s.hasColors = true ∧ wonFlag (setCell s.board s.prev0 s.prev1 s.prev2) = true
                then lockAll s.initialBoard
              else s.initialBoard,
            screen := scr } hp hw2
          rw [h2]
          refine ⟨rfl, fun r c => ?_⟩
          show setCell (setCell s.board s.prev0 s.prev1 s.prev2) s.prev0 s.prev1 s.prev2 r c = _
          rw [setCell_twice]

set_option maxRecDepth 100000 in
/-- C6, as stated, fails: on a grid one digit short of a win, entering the missing digit at
the non-given cursor cell and then undoing leaves the digit in place. -/
theorem undo_after_winning_edit_keeps_digit :
    (gameOf almostSolved almostSolved 4 4).initialBoard 4 4 = 0 ∧
    (gameOf almostSolved almostSolved 4 4).board 4 4 = 0 ∧
    ((step (gameOf almostSolved almostSolved 4 4) (.digit 53)).bind
      (fun s1 => step s1 .undo)).map (fun s2 => s2.board 4 4) = some 5 := by
  decide

/-- C6, amended: with the cursor on a non-given cell of the grid, an edit followed by undo
gives back the board from before the edit whenever `wonGame` is false after the edit
(always so after a clear); when the edit wins the game, the undo changes nothing. -/
theorem undo_round_trip_unless_won (s : Game) (hy : s.y < 9) (hx : s.x < 9)
    (hg : s.initialBoard s.y s.x = 0) :
    (∀ ch : Int, 49 ≤ ch → ch ≤ 57 →
      ∃ s1 s2, step s (.digit ch) = some s1 ∧ step s1 .undo = some s2 ∧
        s1.board = setCell s.board s.y s.x (ch - 48) ∧
        ((wonGame s1).1 = false → s2.board = s.board) ∧
        ((wonGame s1).1 = true → s2.board = s1.board)) ∧
    (∃ s1 s2, step s .clear = some s1 ∧ step s1 .undo = some s2 ∧
        s1.board = setCell s.board s.y s.x 0 ∧ s2.board = s.board) := by
  have hy10 : s.y ≠ 10 := by omega
  constructor
  · intro ch h1 h2
    obtain ⟨scr, h⟩ := step_digit_open s ch h1 h2 hg
    by_cases hw : wonFlag (setCell s.board s.y s.x (ch - 48)) = true
    · obtain ⟨scr2, hu⟩ := step_undo_won { s with
          board := setCell s.board s.y s.x (ch - 48),
          prev0 := s.y, prev1 := s.x, prev2 := s.board s.y s.x,
          initialBoard :=
            if wonFlag (setCell s.board s.y s.x (ch - 48)) = true then lockAll s.initialBoard
            else s.initialBoard,
          screen := scr } hy10 hw
      refine ⟨_, _, h, hu, rfl, ?_, fun _ => rfl⟩
      intro hf
      rw [wonGame_flag] at hf
      exact absurd (hw.symm.trans hf) (by decide)
    · simp only [Bool.not_eq_true] at hw
      obtain ⟨scr2, hu⟩ := step_undo_write { s with
          board := setCell s.board s.y s.x (ch - 48),
          prev0 := s.y, prev1 := s.x, prev2 := s.board s.y s.x,
          initialBoard :=
            if wonFlag (setCell s.board s.y s.x (ch - 48)) = true then lockAll s.initialBoard
            else s.initialBoard,
          screen := scr } hy10 hw
      refine ⟨_, _, h, hu, rfl, fun _ => ?_, ?_⟩
      · exact setCell_restore s.board s.y s.x (ch - 48)
      · intro ht
        rw [wonGame_flag] at ht
        exact absurd (hw.symm.trans ht) (by decide)
  · obtain ⟨scr, h⟩ := step_clear_open s hg
    have hw : wonFlag (setCell s.board s.y s.x 0) = false :=
      wonFlag_blank _ s.y s.x hy hx (by simp [setCell])
    obtain ⟨scr2, hu⟩ := step_undo_write { s with
        board := setCell s.board s.y s.x 0,
        prev0 := s.y, prev1 := s.x, prev2 := s.board s.y s.x,
        initialBoard :=
          if s.hasColors = true ∧ wonFlag (setCell s.board s.y s.x 0) = true
            then lockAll s.initialBoard
          else s.initialBoard,
        screen := scr } hy10 hw
    exact ⟨_, _, h, hu, rfl, setCell_restore s.board s.y s.x 0⟩

theorem undo_round_trip_unless_won_witness :
    (gameOf scenarioGrid scenarioGrid 0 2).y < 9 ∧ (gameOf scenarioGrid scenarioGrid 0 2).x < 9 ∧
    (gameOf scenarioGrid scenarioGrid 0 2).initialBoard
      (gameOf scenarioGrid scenarioGrid 0 2).y (gameOf scenarioGrid scenarioGrid 0 2).x = 0 ∧
    ((∀ ch : Int, 49 ≤ ch → ch ≤ 57 →
      ∃ s1 s2, step (gameOf scenarioGrid scenarioGrid 0 2) (.digit ch) = some s1 ∧
        step s1 .undo = some s2 ∧
        s1.board = setCell (gameOf scenarioGrid scenarioGrid 0 2).board
          (gameOf scenarioGrid scenarioGrid 0 2).y (gameOf scenarioGrid scenarioGrid 0 2).x
          (ch - 48) ∧
        ((wonGame s1).1 = false → s2.board = (gameOf scenarioGrid scenarioGrid 0 2).board) ∧
        ((wonGame s1).1 = true → s2.board = s1.board)) ∧
    (∃ s1 s2, step (gameOf scenarioGrid scenarioGrid 0 2) .clear = some s1 ∧
        step s1 .undo = some s2 ∧
        s1.board = setCell (gameOf scenarioGrid scenarioGrid 0 2).board
          (gameOf scenarioGrid scenarioGrid 0 2).y (gameOf scenarioGrid scenarioGrid 0 2).x 0 ∧
        s2.board = (gameOf scenarioGrid scenarioGrid 0 2).board)) :=
  ⟨by decide, by decide, by decide,
    undo_round_trip_unless_won (gameOf scenarioGrid scenarioGrid 0 2)
      (by decide) (by decide) (by decide)⟩

/-! ## C8, C9: the banner -/

/-- C8: the last banner `warning` shows is fixed by the three soft checks: none when all
pass, and otherwise the text of the table for the combination of failing checks. -/
theorem warning_last_banner (s : Game) (h : InRange s.board) :
    ∃ calls : List String,
      (warning s).screen = s.screen ++ calls.map BannerOp.show ∧
      (checkColumns s.board 1 = true → checkRows s.board 1 = true →
        checkSquares s.board 1 = true → calls = []) ∧
      (checkColumns s.board 1 = false → checkRows s.board 1 = true →
        checkSquares s.board 1 = true →
        calls.getLast? = some "You have a column problem") ∧
      (checkColumns s.board 1 = true → checkRows s.board 1 = false →
        checkSquares s.board 1 = true →
        calls.getLast? = some "You have a row problem") ∧
      (checkColumns s.board 1 = true → checkRows s.board 1 = true →
        checkSquares s.board 1 = false →
        calls.getLast? = some "You have a square problem") ∧
      (checkColumns s.board 1 = false → checkRows s.board 1 = false →
        checkSquares s.board 1 = true →
        calls.getLast? = some "You have a column and a row problem") ∧
      (checkColumns s.board 1 = false → checkRows s.board 1 = true →
        checkSquares s.board 1 = false →
        calls.getLast? = some "You have a column and a square problem") ∧
      (checkColumns s.board 1 = true → checkRows s.board 1 = false →
        checkSquares s.board 1 = false →
        calls.getLast? = some "You have a row problem a square problem") ∧
      (checkColumns s.board 1 = false → checkRows s.board 1 = false →
        checkSquares s.board 1 = false →
        calls.getLast? = some "You have a problem with the column, row, and square") := by
  -- `h` marks the boards on which the three checks are defined in C
  have _hrange := h
  refine ⟨warningCalls (checkColumns s.board 1) (checkRows s.board 1)
    (checkSquares s.board 1), ?_, ?_⟩
  · rw [warning_eq]
  · cases checkColumns s.board 1 <;> cases checkRows s.board 1 <;>
      cases checkSquares s.board 1 <;> simp [warningCalls]

set_option maxRecDepth 100000 in
theorem warning_last_banner_witness :
    InRange (gameOf conflictGrid scenarioGrid 0 2).board ∧
    (warning (gameOf conflictGrid scenarioGrid 0 2)).screen.getLast? =
      some (BannerOp.show "You have a row problem a square problem") ∧
    ∃ calls : List String,
      (warning (gameOf conflictGrid scenarioGrid 0 2)).screen =
        (gameOf conflictGrid scenarioGrid 0 2).screen ++ calls.map BannerOp.show ∧
      (checkColumns (gameOf conflictGrid scenarioGrid 0 2).board 1 = true →
        checkRows (gameOf conflictGrid scenarioGrid 0 2).board 1 = false →
        checkSquares (gameOf conflictGrid scenarioGrid 0 2).board 1 = false →
        calls.getLast? = some "You have a row problem a square problem") := by
  obtain ⟨calls, h1, _, _, _, _, _, _, h7, _⟩ :=
    warning_last_banner (gameOf conflictGrid scenarioGrid 0 2) (by decide)
  exact ⟨by decide, by decide, calls, h1, h7⟩

set_option maxRecDepth 100000 in
/-- C9, as stated, fails: after the 5 is entered at (0, 2) the banner left on screen is not
"You have a row problem", because the two 5s also share a 3×3 box. -/
theorem scenario_banner_is_not_row_problem :
    (scenarioRun false scenarioKeys).map (fun s => s.screen.getLast?) ≠
      some (some (BannerOp.show "You have a row problem")) := by
  decide

set_option maxRecDepth 100000 in
/-- C9, amended: from the loaded scenario grid, entering 5 at (0, 2) makes the soft row
check and the soft square check fail, the banner shown last is "You have a row problem a
square problem"; a following undo puts 0 back at (0, 2) and all three soft checks pass. -/
theorem scenario_row_and_square_problem (hasColors : Bool) :
    (scenarioRun hasColors scenarioKeys).map (fun s => (s.y, s.x, s.board 0 2)) =
      some (0, 2, 5) ∧
    (scenarioRun hasColors scenarioKeys).map
        (fun s => (checkColumns s.board 1, checkRows s.board 1, checkSquares s.board 1)) =
      some (true, false, false) ∧
    (scenarioRun hasColors scenarioKeys).map (fun s => s.screen.getLast?) =
      some (some (BannerOp.show "You have a row problem a square problem")) ∧
    (scenarioRun hasColors (scenarioKeys ++ [Key.undo])).map (fun s => s.board 0 2) = some 0 ∧
    (scenarioRun hasColors (scenarioKeys ++ [Key.undo])).map
        (fun s => (checkColumns s.board 1, checkRows s.board 1, checkSquares s.board 1)) =
      some (true, true, true) := by
  cases hasColors <;> decide

set_option maxRecDepth 100000 in
/-- C7, failing inputs: an undo issued right after a new game or a restart writes the move
recorded in the previous game into the freshly loaded board. -/
theorem undo_after_reload_changes_board :
    ((boot false (some scenarioGrid)).bind
        (fun s => run s [Key.digit 53, Key.newGame (some centreGiven), Key.undo])).map
      (fun s => (s.initialBoard 4 4, s.board 4 4)) = some (3, 0) ∧
    ((boot false (some scenarioGrid)).bind
        (fun s => run s [Key.digit 53, Key.digit 55, Key.restart (some scenarioGrid),
          Key.undo])).map
      (fun s => (s.initialBoard 4 4, s.board 4 4)) = some (0, 5) := by
  decide

set_option maxRecDepth 100000 in
/-- C4, as stated, fails: once the last digit is entered `wonGame` overwrites the given grid
with 9s, so given cells differ from the board from then on, not only transiently. -/
theorem given_cells_differ_after_win :
    ((boot false (some almostSolved)).bind
        (fun s => run s [Key.digit 53, Key.up, Key.other])).map
      (fun s => (s.initialBoard 0 0, s.board 0 0)) = some (9, 5) := by
  decide

/-! ## C4, C5: the given cells and the win lock along a run -/

theorem redraw_all_state (t : Game) :
    ∃ scr, redraw_all t =
      { t with
        initialBoard :=
          if t.hasColors = true ∧ wonFlag t.board = true then lockAll t.initialBoard
          else t.initialBoard,
        screen := scr } := by
  unfold redraw_all
  simp only []
  rw [draw_numbers_state]
  exact ⟨_, rfl⟩

theorem lockAll_cell (g : Board) (r c : Nat) (hr : r < 9) (hc : c < 9) : lockAll g r c = 9 := by
  unfold lockAll
  rw [if_pos ⟨hr, hc⟩]

/-- In a locked state every key that stays in the game leaves the board alone and the
lock in place. -/
theorem step_locked (t : Game) (k : Key) (hk : k.inGame = true)
    (hy : t.y < 9) (hx : t.x < 9) (hw : wonFlag t.board = true)
    (hl : ∀ r, r < 9 → ∀ c, c < 9 → t.initialBoard r c = 9) :
    ∃ t', step t k = some t' ∧ t'.board = t.board ∧ t'.y < 9 ∧ t'.x < 9 ∧
      (∀ r, r < 9 → ∀ c, c < 9 → t'.initialBoard r c = 9) := by
  have hgiven : t.initialBoard t.y t.x ≠ 0 := by
    rw [hl t.y hy t.x hx]; decide
  cases k with
  | newGame d => exact absurd hk (by simp [Key.inGame])
  | restart d => exact absurd hk (by simp [Key.inGame])
  | quit => exact absurd hk (by simp [Key.inGame])
  | redraw =>
    obtain ⟨scr, h⟩ := redraw_all_state t
    refine ⟨_, congrArg some h, rfl, hy, hx, ?_⟩
    intro r hr c hc
    simp only [hw, and_true]
    split
    · exact lockAll_cell _ r c hr hc
    · exact hl r hr c hc
  | up =>
    refine ⟨_, rfl, ?_, ?_, ?_, ?_⟩
    · split <;> rfl
    · split
      · show t.y - 1 < 9; omega
      · show 8 < 9; omega
    · split <;> exact hx
    · split <;> exact hl
  | down =>
    refine ⟨_, rfl, ?_, ?_, ?_, ?_⟩
    · split <;> rfl
    · split
      · show t.y + 1 < 9; omega
      · show 0 < 9; omega
    · split <;> exact hx
    · split <;> exact hl
  | left =>
    refine ⟨_, rfl, ?_, ?_, ?_, ?_⟩
    · split <;> rfl
    · split <;> exact hy
    · split
      · show t.x - 1 < 9; omega
      · show 8 < 9; omega
    · split <;> exact hl
  | right =>
    refine ⟨_, rfl, ?_, ?_, ?_, ?_⟩
    · split <;> rfl
    · split <;> exact hy
    · split
      · show t.x + 1 < 9; omega
      · show 0 < 9; omega
    · split <;> exact hl
  | digit ch =>
    by_cases hch : 49 ≤ ch ∧ ch ≤ 57
    · obtain ⟨scr, h⟩ := step_digit_given t ch hch.1 hch.2 hgiven
      refine ⟨_, h, rfl, hy, hx, ?_⟩
      intro r hr c hc
      simp only [hw, if_true]
      exact lockAll_cell _ r c hr hc
    · refine ⟨t, ?_, rfl, hy, hx, hl⟩
      simp only [step, hch, if_false]
  | clear =>
    obtain ⟨scr, h⟩ := step_clear_given t hgiven
    exact ⟨_, h, rfl, hy, hx, hl⟩
  | undo =>
    by_cases hp : t.prev0 = 10
    · exact ⟨t, step_undo_none t hp, rfl, hy, hx, hl⟩
    · obtain ⟨scr, h⟩ := step_undo_won t hp hw
      refine ⟨_, h, rfl, hy, hx, ?_⟩
      intro r hr c hc
      exact lockAll_cell _ r c hr hc
  | other => exact ⟨t, rfl, rfl, hy, hx, hl⟩

theorem run_locked (ks : List Key) (hks : ∀ k, k ∈ ks → k.inGame = true) :
    ∀ t : Game, t.y < 9 → t.x < 9 → wonFlag t.board = true →
      (∀ r, r < 9 → ∀ c, c < 9 → t.initialBoard r c = 9) →
      ∃ t', run t ks = some t' ∧ t'.board = t.board ∧ t'.y < 9 ∧ t'.x < 9 ∧
        (∀ r, r < 9 → ∀ c, c < 9 → t'.initialBoard r c = 9) := by
  induction ks with
  | nil => intro t hy hx _ hl; exact ⟨t, rfl, rfl, hy, hx, hl⟩
  | cons k ks ih =>
    intro t hy hx hw hl
    obtain ⟨t1, h1, hb1, hy1, hx1, hl1⟩ :=
      step_locked t k (hks k (List.mem_cons_self k ks)) hy hx hw hl
    obtain ⟨t2, h2, hb2, hy2, hx2, hl2⟩ :=
      ih (fun k' hk' => hks k' (List.mem_cons_of_mem k hk')) t1 hy1 hx1 (by rw [hb1]; exact hw) hl1
    refine ⟨t2, ?_, hb2.trans hb1, hy2, hx2, hl2⟩
    simp only [run, h1, h2]

/-- C5: once `wonGame` has returned true, no sequence of digit, clear, undo, cursor and
redraw keys changes any cell of the board. -/
theorem lock_on_win (s : Game) (hy : s.y < 9) (hx : s.x < 9) (hw : (wonGame s).1 = true)
    (ks : List Key) (hks : ∀ k, k ∈ ks → k.inGame = true) :
    ∃ s', run (wonGame s).2 ks = some s' ∧ ∀ r c, s'.board r c = s.board r c := by
  rw [wonGame_flag] at hw
  have hst := wonGame_state s
  rw [if_pos hw] at hst
  rw [hst]
  obtain ⟨t', h, hb, _, _, _⟩ := run_locked ks hks
    { s with initialBoard := lockAll s.initialBoard,
             screen := s.screen ++ [BannerOp.show "Congrats, you won!"] }
    hy hx hw (fun r hr c hc => lockAll_cell _ r c hr hc)
  exact ⟨t', h, fun r c => by rw [hb]⟩

set_option maxRecDepth 100000 in
theorem lock_on_win_witness :
    (gameOf solvedGrid almostSolved 4 4).y < 9 ∧ (gameOf solvedGrid almostSolved 4 4).x < 9 ∧
    (wonGame (gameOf solvedGrid almostSolved 4 4)).1 = true ∧
    (∀ k, k ∈ [Key.digit 49, Key.clear, Key.undo, Key.left, Key.digit 50] →
      k.inGame = true) ∧
    ∃ s', run (wonGame (gameOf solvedGrid almostSolved 4 4)).2
        [Key.digit 49, Key.clear, Key.undo, Key.left, Key.digit 50] = some s' ∧
      ∀ r c, s'.board r c = (gameOf solvedGrid almostSolved 4 4).board r c :=
  ⟨by decide, by decide, by decide, by decide,
    lock_on_win (gameOf solvedGrid almostSolved 4 4) (by decide) (by decide) (by decide)
      [Key.digit 49, Key.clear, Key.undo, Key.left, Key.digit 50] (by decide)⟩

theorem boot_state (hasColors : Bool) (grid : Board) :
    ∃ scr, boot hasColors (some grid) = some
      { board := grid,
        initialBoard :=
          if hasColors = true ∧ wonFlag grid = true then
            lockAll (copyAll (fun _ _ => 0) grid)
          else copyAll (fun _ _ => 0) grid,
        y := 4, x := 4, prev0 := 10, prev1 := 0, prev2 := 0,
        hasColors := hasColors, screen := scr } := by
  unfold boot restart_game load_board
  simp only [copy_loops, start]
  rw [draw_numbers_state]
  simp only []
  obtain ⟨scr, h⟩ := redraw_all_state
    { board := grid,
      initialBoard :=
        if hasColors = true ∧ wonFlag grid = true then lockAll (copyAll (fun _ _ => 0) grid)
        else copyAll (fun _ _ => 0) grid,
      y := 4, x := 4, prev0 := 10, prev1 := 0, prev2 := 0, hasColors := hasColors,
      screen := (draw_numbers
        { board := grid, initialBoard := copyAll (fun _ _ => 0) grid, y := 0, x := 0,
          prev0 := 10, prev1 := 0, prev2 := 0, hasColors := hasColors, screen := [] }).screen }
  rw [h]
  refine ⟨scr, ?_⟩
  by_cases hc : hasColors = true ∧ wonFlag grid = true
  · simp only [hc, and_self, if_true, lockAll_lockAll]
  · simp only [hc, if_false]

/-- A won board cannot agree with a given grid that holds 9 everywhere. -/
theorem not_givenKept_of_winLocked (s : Game) (h : WinLocked s) : ¬ GivenKept s := by
  intro hk
  obtain ⟨hw, hl⟩ := h
  rw [wonGame_flag] at hw
  unfold wonFlag at hw
  simp only [Bool.and_eq_true] at hw
  have hrows := (checkRows_strict s.board).mp hw.1.2
  have h0 : s.board 0 0 = 9 := by
    rw [hk 0 (by omega) 0 (by omega) (by rw [hl 0 (by omega) 0 (by omega)]; decide)]
    exact hl 0 (by omega) 0 (by omega)
  have h1 : s.board 0 1 = 9 := by
    rw [hk 0 (by omega) 1 (by omega) (by rw [hl 0 (by omega) 1 (by omega)]; decide)]
    exact hl 0 (by omega) 1 (by omega)
  exact hrows 0 (by omega) 0 (by omega) 1 (by omega) (by omega) (h0.trans h1.symm)

theorem givenKept_setCell (t : Game) (r0 c0 : Nat) (v : Int) (scr : List BannerOp)
    (p0 p1 : Nat) (p2 : Int)
    (hk : GivenKept t) (hg : t.initialBoard r0 c0 = 0) :
    GivenKept { t with board := setCell t.board r0 c0 v, prev0 := p0, prev1 := p1,
                       prev2 := p2, screen := scr } := by
  intro r hr c hc hne
  show setCell t.board r0 c0 v r c = t.initialBoard r c
  unfold setCell
  by_cases h : r = r0 ∧ c = c0
  · exfalso
    apply hne
    show t.initialBoard r c = 0
    rw [h.1, h.2]
    exact hg
  · rw [if_neg h]
    exact hk r hr c hc hne

/-- Outside the lock, a key that stays in the game keeps the given cells, or fires the lock. -/
theorem step_unlocked (t : Game) (k : Key) (hk : k.inGame = true)
    (hy : t.y < 9) (hx : t.x < 9) (hkept : GivenKept t) (hfresh : RecordFresh t) :
    ∃ t', step t k = some t' ∧ t'.y < 9 ∧ t'.x < 9 ∧
      ((GivenKept t' ∧ RecordFresh t') ∨
       (wonFlag t'.board = true ∧ ∀ r, r < 9 → ∀ c, c < 9 → t'.initialBoard r c = 9)) := by
  cases k with
  | newGame d => exact absurd hk (by simp [Key.inGame])
  | restart d => exact absurd hk (by simp [Key.inGame])
  | quit => exact absurd hk (by simp [Key.inGame])
  | redraw =>
    obtain ⟨scr, h⟩ := redraw_all_state t
    refine ⟨_, congrArg some h, hy, hx, ?_⟩
    by_cases hc : t.hasColors = true ∧ wonFlag t.board = true
    · right
      simp only [hc, and_self, if_true]
      exact ⟨trivial, fun r hr c hc' => lockAll_cell _ r c hr hc'⟩
    · left
      simp only [hc, if_false]
      exact ⟨hkept, hfresh⟩
  | up =>
    refine ⟨_, rfl, ?_, ?_, Or.inl ?_⟩
    · split
      · show t.y - 1 < 9; omega
      · show 8 < 9; omega
    · split <;> exact hx
    · split <;> exact ⟨hkept, hfresh⟩
  | down =>
    refine ⟨_, rfl, ?_, ?_, Or.inl ?_⟩
    · split
      · show t.y + 1 < 9; omega
      · show 0 < 9; omega
    · split <;> exact hx
    · split <;> exact ⟨hkept, hfresh⟩
  | left =>
    refine ⟨_, rfl, ?_, ?_, Or.inl ?_⟩
    · split <;> exact hy
    · split
      · show t.x - 1 < 9; omega
      · show 8 < 9; omega
    · split <;> exact ⟨hkept, hfresh⟩
  | right =>
    refine ⟨_, rfl, ?_, ?_, Or.inl ?_⟩
    · split <;> exact hy
    · split
      · show t.x + 1 < 9; omega
      · show 0 < 9; omega
    · split <;> exact ⟨hkept, hfresh⟩
  | digit ch =>
    by_cases hch : 49 ≤ ch ∧ ch ≤ 57
    · by_cases hg : t.initialBoard t.y t.x = 0
      · obtain ⟨scr, h⟩ := step_digit_open t ch hch.1 hch.2 hg
        refine ⟨_, h, hy, hx, ?_⟩
        by_cases hw : wonFlag (setCell t.board t.y t.x (ch - 48)) = true
        · right
          simp only [hw, if_true]
          exact ⟨trivial, fun r hr c hc' => lockAll_cell _ r c hr hc'⟩
        · left
          simp only [hw, if_false]
          exact ⟨givenKept_setCell t t.y t.x (ch - 48) scr _ _ _ hkept hg,
            Or.inr ⟨hy, hx, hg⟩⟩
      · obtain ⟨scr, h⟩ := step_digit_given t ch hch.1 hch.2 hg
        refine ⟨_, h, hy, hx, ?_⟩
        by_cases hw : wonFlag t.board = true
        · right
          simp only [hw, if_true]
          exact ⟨trivial, fun r hr c hc' => lockAll_cell _ r c hr hc'⟩
        · left
          simp only [hw, if_false]
          exact ⟨hkept, hfresh⟩
    · refine ⟨t, ?_, hy, hx, Or.inl ⟨hkept, hfresh⟩⟩
      simp only [step, hch, if_false]
  | clear =>
    by_cases hg : t.initialBoard t.y t.x = 0
    · obtain ⟨scr, h⟩ := step_clear_open t hg
      have hw : wonFlag (setCell t.board t.y t.x 0) = false :=
        wonFlag_blank _ t.y t.x hy hx (by simp [setCell])
      refine ⟨_, h, hy, hx, Or.inl ?_⟩
      simp only [hw, Bool.false_eq_true, and_false, if_false]
      exact ⟨givenKept_setCell t t.y t.x 0 scr _ _ _ hkept hg, Or.inr ⟨hy, hx, hg⟩⟩
    · obtain ⟨scr, h⟩ := step_clear_given t hg
      exact ⟨_, h, hy, hx, Or.inl ⟨hkept, hfresh⟩⟩
  | undo =>
    by_cases hp : t.prev0 = 10
    · exact ⟨t, step_undo_none t hp, hy, hx, Or.inl ⟨hkept, hfresh⟩⟩
    · by_cases hw : wonFlag t.board = true
      · obtain ⟨scr, h⟩ := step_undo_won t hp hw
        exact ⟨_, h, hy, hx, Or.inr ⟨hw, fun r hr c hc' => lockAll_cell _ r c hr hc'⟩⟩
      · simp only [Bool.not_eq_true] at hw
        obtain ⟨scr, h⟩ := step_undo_write t hp hw
        refine ⟨_, h, hy, hx, ?_⟩
        rcases hfresh with h10 | ⟨hp0, hp1, hpg⟩
        · exact absurd h10 hp
        · by_cases hc : t.hasColors = true ∧
              wonFlag (setCell t.board t.prev0 t.prev1 t.prev2) = true
          · right
            simp only [hc, and_self, if_true]
            exact ⟨trivial, fun r hr c hc' => lockAll_cell _ r c hr hc'⟩
          · left
            simp only [hc, if_false]
            exact ⟨givenKept_setCell t t.prev0 t.prev1 t.prev2 scr _ _ _ hkept hpg,
              Or.inr ⟨hp0, hp1, hpg⟩⟩
  | other => exact ⟨t, rfl, hy, hx, Or.inl ⟨hkept, hfresh⟩⟩

/-- What a key that stays in the game can do to the given grid and to the recorded move:
the given grid is kept or locked, the record is kept or set to the non-given cursor cell. -/
theorem step_frame (t : Game) (k : Key) (hk : k.inGame = true) :
    ∃ t', step t k = some t' ∧
      (t'.initialBoard = t.initialBoard ∨
        (wonFlag t'.board = true ∧ t'.initialBoard = lockAll t.initialBoard)) ∧
      ((t'.prev0 = t.prev0 ∧ t'.prev1 = t.prev1) ∨
        (t'.prev0 = t.y ∧ t'.prev1 = t.x ∧ t.initialBoard t.y t.x = 0)) := by
  cases k with
  | newGame d => exact absurd hk (by simp [Key.inGame])
  | restart d => exact absurd hk (by simp [Key.inGame])
  | quit => exact absurd hk (by simp [Key.inGame])
  | redraw =>
    obtain ⟨scr, h⟩ := redraw_all_state t
    refine ⟨_, congrArg some h, ?_, Or.inl ⟨rfl, rfl⟩⟩
    dsimp only
    by_cases hc : t.hasColors = true ∧ wonFlag t.board = true
    · rw [if_pos hc]; exact Or.inr ⟨hc.2, rfl⟩
    · rw [if_neg hc]; exact Or.inl rfl
  | up =>
    refine ⟨_, rfl, Or.inl ?_, Or.inl ?_⟩
    · split <;> rfl
    · split <;> exact ⟨rfl, rfl⟩
  | down =>
    refine ⟨_, rfl, Or.inl ?_, Or.inl ?_⟩
    · split <;> rfl
    · split <;> exact ⟨rfl, rfl⟩
  | left =>
    refine ⟨_, rfl, Or.inl ?_, Or.inl ?_⟩
    · split <;> rfl
    · split <;> exact ⟨rfl, rfl⟩
  | right =>
    refine ⟨_, rfl, Or.inl ?_, Or.inl ?_⟩
    · split <;> rfl
    · split <;> exact ⟨rfl, rfl⟩
  | digit ch =>
    by_cases hch : 49 ≤ ch ∧ ch ≤ 57
    · by_cases hg : t.initialBoard t.y t.x = 0
      · obtain ⟨scr, h⟩ := step_digit_open t ch hch.1 hch.2 hg
        refine ⟨_, h, ?_, Or.inr ⟨rfl, rfl, hg⟩⟩
        dsimp only
        by_cases hw : wonFlag (setCell t.board t.y t.x (ch - 48)) = true
        · rw [if_pos hw]; exact Or.inr ⟨hw, rfl⟩
        · rw [if_neg hw]; exact Or.inl rfl
      · obtain ⟨scr, h⟩ := step_digit_given t ch hch.1 hch.2 hg
        refine ⟨_, h, ?_, Or.inl ⟨rfl, rfl⟩⟩
        dsimp only
        by_cases hw : wonFlag t.board = true
        · rw [if_pos hw]; exact Or.inr ⟨hw, rfl⟩
        · rw [if_neg hw]; exact Or.inl rfl
    · refine ⟨t, ?_, Or.inl rfl, Or.inl ⟨rfl, rfl⟩⟩
      simp only [step, hch, if_false]
  | clear =>
    by_cases hg : t.initialBoard t.y t.x = 0
    · obtain ⟨scr, h⟩ := step_clear_open t hg
      refine ⟨_, h, ?_, Or.inr ⟨rfl, rfl, hg⟩⟩
      dsimp only
      by_cases hc : t.hasColors = true ∧ wonFlag (setCell t.board t.y t.x 0) = true
      · rw [if_pos hc]; exact Or.inr ⟨hc.2, rfl⟩
      · rw [if_neg hc]; exact Or.inl rfl
    · obtain ⟨scr, h⟩ := step_clear_given t hg
      exact ⟨_, h, Or.inl rfl, Or.inl ⟨rfl, rfl⟩⟩
  | undo =>
    by_cases hp : t.prev0 = 10
    · exact ⟨t, step_undo_none t hp, Or.inl rfl, Or.inl ⟨rfl, rfl⟩⟩
    · by_cases hw : wonFlag t.board = true
      · obtain ⟨scr, h⟩ := step_undo_won t hp hw
        exact ⟨_, h, Or.inr ⟨hw, rfl⟩, Or.inl ⟨rfl, rfl⟩⟩
      · simp only [Bool.not_eq_true] at hw
        obtain ⟨scr, h⟩ := step_undo_write t hp hw
        refine ⟨_, h, ?_, Or.inl ⟨rfl, rfl⟩⟩
        dsimp only
        by_cases hc : t.hasColors = true ∧
            wonFlag (setCell t.board t.prev0 t.prev1 t.prev2) = true
        · rw [if_pos hc]; exact Or.inr ⟨hc.2, rfl⟩
        · rw [if_neg hc]; exact Or.inl rfl
  | other => exact ⟨t, rfl, Or.inl rfl, Or.inl ⟨rfl, rfl⟩⟩

/-- The restart case on a successful load: the board and the given grid are the grid read
from disk (locked at once when `draw_numbers` sees a solved grid), the cursor is centred
and the recorded move is left as it was. -/
theorem restart_state (t : Game) (grid : Board) :
    ∃ scr, step t (.restart (some grid)) = some
      { t with
        board := grid,
        initialBoard :=
          if t.hasColors = true ∧ wonFlag grid = true then
            lockAll (copyAll t.initialBoard grid)
          else copyAll t.initialBoard grid,
        y := 4, x := 4, screen := scr } := by
  simp only [step, restart_game, load_board, copy_loops]
  rw [draw_numbers_state]
  exact ⟨_, rfl⟩

theorem copyAll_cell (g b : Board) (r c : Nat) (hr : r < 9) (hc : c < 9) :
    copyAll g b r c = b r c := by
  unfold copyAll
  rw [if_pos ⟨hr, hc⟩]

/-- One key of a game played on `grid` keeps `PlayInv`. -/
theorem step_plays (grid : Board) (t : Game) (k : Key) (hk : k.playsOn grid)
    (hinv : PlayInv grid t) : ∃ t', step t k = some t' ∧ PlayInv grid t' := by
  obtain ⟨hy, hx, hrec, hstate⟩ := hinv
  by_cases hin : k.inGame = true
  · obtain ⟨t1, h1, hib, hpr⟩ := step_frame t k hin
    rcases hstate with ⟨hkept, hgrid⟩ | hlock
    · have hfresh : RecordFresh t := by
        rcases hrec with h10 | ⟨hp0, hp1, hz⟩
        · exact Or.inl h10
        · exact Or.inr ⟨hp0, hp1, by rw [hgrid _ hp0 _ hp1]; exact hz⟩
      obtain ⟨t2, h2, hy2, hx2, hJ⟩ := step_unlocked t k hin hy hx hkept hfresh
      have e : t2 = t1 := Option.some.inj (h2.symm.trans h1)
      subst e
      refine ⟨t2, h2, hy2, hx2, ?_, ?_⟩
      · rcases hpr with ⟨e0, e1⟩ | ⟨e0, e1, hg⟩
        · unfold RecordOn
          rw [e0, e1]
          exact hrec
        · unfold RecordOn
          rw [e0, e1]
          exact Or.inr ⟨hy, hx, by rw [← hgrid _ hy _ hx]; exact hg⟩
      · rcases hJ with ⟨hk2, _⟩ | ⟨hw2, hl2⟩
        · rcases hib with e | ⟨hw2, e⟩
          · left
            refine ⟨hk2, fun r hr c hc => ?_⟩
            rw [e]
            exact hgrid r hr c hc
          · right
            refine ⟨by rw [wonGame_flag]; exact hw2, fun r hr c hc => ?_⟩
            rw [e]
            exact lockAll_cell _ r c hr hc
        · right
          exact ⟨by rw [wonGame_flag]; exact hw2, hl2⟩
    · obtain ⟨hw, hl⟩ := hlock
      rw [wonGame_flag] at hw
      obtain ⟨t2, h2, hb2, hy2, hx2, hl2⟩ := step_locked t k hin hy hx hw hl
      have e : t2 = t1 := Option.some.inj (h2.symm.trans h1)
      subst e
      refine ⟨t2, h2, hy2, hx2, ?_, Or.inr ⟨?_, hl2⟩⟩
      · rcases hpr with ⟨e0, e1⟩ | ⟨_, _, hg⟩
        · unfold RecordOn
          rw [e0, e1]
          exact hrec
        · rw [hl _ hy _ hx] at hg
          exact absurd hg (by decide)
      · rw [wonGame_flag, hb2]
        exact hw
  · cases k with
    | restart d =>
      cases d with
      | none => exact absurd hk hin
      | some g =>
        have e : g = grid := hk
        subst e
        obtain ⟨scr, h⟩ := restart_state t g
        refine ⟨_, h, show 4 < 9 by omega, show 4 < 9 by omega, hrec, ?_⟩
        by_cases hc : t.hasColors = true ∧ wonFlag g = true
        · right
          refine ⟨?_, fun r hr c hc' => ?_⟩
          · rw [wonGame_flag]
            exact hc.2
          · dsimp only
            rw [if_pos hc]
            exact lockAll_cell _ r c hr hc'
        · left
          refine ⟨fun r hr c hc' _ => ?_, fun r hr c hc' => ?_⟩
          · dsimp only
            rw [if_neg hc, copyAll_cell _ _ r c hr hc']
          · dsimp only
            rw [if_neg hc, copyAll_cell _ _ r c hr hc']
    | newGame d => exact absurd hk hin
    | quit => exact absurd hk hin
    | redraw => exact absurd rfl hin
    | up => exact absurd rfl hin
    | down => exact absurd rfl hin
    | left => exact absurd rfl hin
    | right => exact absurd rfl hin
    | digit ch => exact absurd rfl hin
    | clear => exact absurd rfl hin
    | undo => exact absurd rfl hin
    | other => exact absurd rfl hin

theorem run_plays (grid : Board) (ks : List Key) (hks : ∀ k, k ∈ ks → k.playsOn grid) :
    ∀ t : Game, PlayInv grid t → ∃ t', run t ks = some t' ∧ PlayInv grid t' := by
  induction ks with
  | nil => intro t h; exact ⟨t, rfl, h⟩
  | cons k ks ih =>
    intro t h
    obtain ⟨t1, h1, hinv1⟩ := step_plays grid t k (hks k (List.mem_cons_self k ks)) h
    obtain ⟨t2, h2, hinv2⟩ :=
      ih (fun k' hk' => hks k' (List.mem_cons_of_mem k hk')) t1 hinv1
    exact ⟨t2, by simp only [run, h1, h2], hinv2⟩

/-- The state `main` enters the input loop with satisfies `PlayInv` for the loaded grid. -/
theorem boot_plays (hasColors : Bool) (grid : Board) :
    ∃ s0, boot hasColors (some grid) = some s0 ∧ PlayInv grid s0 := by
  obtain ⟨scr, hboot⟩ := boot_state hasColors grid
  refine ⟨_, hboot, show 4 < 9 by omega, show 4 < 9 by omega, Or.inl rfl, ?_⟩
  by_cases hc : hasColors = true ∧ wonFlag grid = true
  · right
    refine ⟨?_, fun r hr c hc' => ?_⟩
    · rw [wonGame_flag]
      exact hc.2
    · dsimp only
      rw [if_pos hc]
      exact lockAll_cell _ r c hr hc'
  · left
    refine ⟨fun r hr c hc' _ => ?_, fun r hr c hc' => ?_⟩
    · dsimp only
      rw [if_neg hc, copyAll_cell _ _ r c hr hc']
    · dsimp only
      rw [if_neg hc, copyAll_cell _ _ r c hr hc']

/-- C4, amended: in every state reached from the first load by cursor moves, digits,
clears, undos, redraws and restarts of the same puzzle, either every given cell holds its
given value or the win lock has fired (the board passes `wonGame` and every given cell
holds 9). In a locked state the given cells differ from the board, and under every further
sequence of keys without a reload the lock stays, the board is unchanged and the given
cells still differ from it. -/
theorem given_cells_kept_until_win (hasColors : Bool) (grid : Board) (ks : List Key)
    (hks : ∀ k, k ∈ ks → k.playsOn grid) :
    ∃ s0 s, boot hasColors (some grid) = some s0 ∧ run s0 ks = some s ∧
      (GivenKept s ∨ WinLocked s) ∧
      (WinLocked s → ¬ GivenKept s ∧
        ∀ ks' : List Key, (∀ k, k ∈ ks' → k.inGame = true) →
          ∃ s', run s ks' = some s' ∧ WinLocked s' ∧ ¬ GivenKept s' ∧
            ∀ r c, s'.board r c = s.board r c) := by
  obtain ⟨s0, hboot, hinv0⟩ := boot_plays hasColors grid
  obtain ⟨s, hrun, hy, hx, _, hstate⟩ := run_plays grid ks hks s0 hinv0
  refine ⟨s0, s, hboot, hrun, ?_, ?_⟩
  · rcases hstate with h | h
    · exact Or.inl h.1
    · exact Or.inr h
  · intro hlock
    refine ⟨not_givenKept_of_winLocked s hlock, ?_⟩
    intro ks' hks'
    have hw : wonFlag s.board = true := by
      rw [← wonGame_flag]
      exact hlock.1
    obtain ⟨s', hrun', hb, _, _, hl⟩ := run_locked ks' hks' s hy hx hw hlock.2
    have hlock' : WinLocked s' := ⟨by rw [wonGame_flag, hb]; exact hw, hl⟩
    exact ⟨s', hrun', hlock', not_givenKept_of_winLocked s' hlock', fun r c => by rw [hb]⟩

theorem given_cells_kept_until_win_witness :
    (∀ k, k ∈ [Key.digit 53, Key.up, Key.undo, Key.restart (some almostSolved), Key.digit 53] →
      k.playsOn almostSolved) ∧
    ∃ s0 s, boot false (some almostSolved) = some s0 ∧
      run s0 [Key.digit 53, Key.up, Key.undo, Key.restart (some almostSolved), Key.digit 53]
        = some s ∧
      (GivenKept s ∨ WinLocked s) ∧
      (WinLocked s → ¬ GivenKept s ∧
        ∀ ks' : List Key, (∀ k, k ∈ ks' → k.inGame = true) →
          ∃ s', run s ks' = some s' ∧ WinLocked s' ∧ ¬ GivenKept s' ∧
            ∀ r c, s'.board r c = s.board r c) :=
  ⟨by simp [Key.playsOn, Key.inGame],
    given_cells_kept_until_win false almostSolved
      [Key.digit 53, Key.up, Key.undo, Key.restart (some almostSolved), Key.digit 53]
      (by simp [Key.playsOn, Key.inGame])⟩

/-- After the first load nothing is recorded, so an undo is a no-op (the part of C7 the
code does keep). -/
theorem undo_after_first_load (hasColors : Bool) (grid : Board) :
    ∃ s0, boot hasColors (some grid) = some s0 ∧ step s0 .undo = some s0 := by
  obtain ⟨scr, h⟩ := boot_state hasColors grid
  exact ⟨_, h, step_undo_none _ rfl⟩

/-! ## C11: the cursor keys -/

/-- C11: with the cursor inside the grid, up and down move the row to `(y + 8) % 9` and
`(y + 1) % 9` and keep the column, left and right move the column to `(x + 8) % 9` and
`(x + 1) % 9` and keep the row; the new cursor is inside the grid again and the board,
the given grid and the recorded move are as before. -/
theorem cursor_moves_wrap (s : Game) (hy : s.y < 9) (hx : s.x < 9) :
    (∃ t, step s .up = some t ∧ t.y = (s.y + 8) % 9 ∧ t.x = s.x ∧
      t.y < 9 ∧ t.x < 9 ∧ SameButCursor s t) ∧
    (∃ t, step s .down = some t ∧ t.y = (s.y + 1) % 9 ∧ t.x = s.x ∧
      t.y < 9 ∧ t.x < 9 ∧ SameButCursor s t) ∧
    (∃ t, step s .left = some t ∧ t.x = (s.x + 8) % 9 ∧ t.y = s.y ∧
      t.y < 9 ∧ t.x < 9 ∧ SameButCursor s t) ∧
    (∃ t, step s .right = some t ∧ t.x = (s.x + 1) % 9 ∧ t.y = s.y ∧
      t.y < 9 ∧ t.x < 9 ∧ SameButCursor s t) := by
  refine ⟨⟨_, rfl, ?_⟩, ⟨_, rfl, ?_⟩, ⟨_, rfl, ?_⟩, ⟨_, rfl, ?_⟩⟩
  · by_cases h : s.y > 0
    · rw [if_pos h]
      refine ⟨?_, rfl, ?_, hx, rfl, rfl, rfl, rfl, rfl, rfl, rfl⟩
      · show s.y - 1 = (s.y + 8) % 9; omega
      · show s.y - 1 < 9; omega
    · rw [if_neg h]
      refine ⟨?_, rfl, ?_, hx, rfl, rfl, rfl, rfl, rfl, rfl, rfl⟩
      · show 8 = (s.y + 8) % 9; omega
      · show 8 < 9; omega
  · by_cases h : s.y < 8
    · rw [if_pos h]
      refine ⟨?_, rfl, ?_, hx, rfl, rfl, rfl, rfl, rfl, rfl, rfl⟩
      · show s.y + 1 = (s.y + 1) % 9; omega
      · show s.y + 1 < 9; omega
    · rw [if_neg h]
      refine ⟨?_, rfl, ?_, hx, rfl, rfl, rfl, rfl, rfl, rfl, rfl⟩
      · show 0 = (s.y + 1) % 9; omega
      · show 0 < 9; omega
  · by_cases h : s.x > 0
    · rw [if_pos h]
      refine ⟨?_, rfl, hy, ?_, rfl, rfl, rfl, rfl, rfl, rfl, rfl⟩
      · show s.x - 1 = (s.x + 8) % 9; omega
      · show s.x - 1 < 9; omega
    · rw [if_neg h]
      refine ⟨?_, rfl, hy, ?_, rfl, rfl, rfl, rfl, rfl, rfl, rfl⟩
      · show 8 = (s.x + 8) % 9; omega
      · show 8 < 9; omega
  · by_cases h : s.x < 8
    · rw [if_pos h]
      refine ⟨?_, rfl, hy, ?_, rfl, rfl, rfl, rfl, rfl, rfl, rfl⟩
      · show s.x + 1 = (s.x + 1) % 9; omega
      · show s.x + 1 < 9; omega
    · rw [if_neg h]
      refine ⟨?_, rfl, hy, ?_, rfl, rfl, rfl, rfl, rfl, rfl, rfl⟩
      · show 0 = (s.x + 1) % 9; omega
      · show 0 < 9; omega

theorem cursor_moves_wrap_witness :
    (gameOf scenarioGrid scenarioGrid 0 8).y < 9 ∧ (gameOf scenarioGrid scenarioGrid 0 8).x < 9 ∧
    ((∃ t, step (gameOf scenarioGrid scenarioGrid 0 8) .up = some t ∧
      t.y = ((gameOf scenarioGrid scenarioGrid 0 8).y + 8) % 9 ∧
      t.x = (gameOf scenarioGrid scenarioGrid 0 8).x ∧
      t.y < 9 ∧ t.x < 9 ∧ SameButCursor (gameOf scenarioGrid scenarioGrid 0 8) t) ∧
    (∃ t, step (gameOf scenarioGrid scenarioGrid 0 8) .down = some t ∧
      t.y = ((gameOf scenarioGrid scenarioGrid 0 8).y + 1) % 9 ∧
      t.x = (gameOf scenarioGrid scenarioGrid 0 8).x ∧
      t.y < 9 ∧ t.x < 9 ∧ SameButCursor (gameOf scenarioGrid scenarioGrid 0 8) t) ∧
    (∃ t, step (gameOf scenarioGrid scenarioGrid 0 8) .left = some t ∧
      t.x = ((gameOf scenarioGrid scenarioGrid 0 8).x + 8) % 9 ∧
      t.y = (gameOf scenarioGrid scenarioGrid 0 8).y ∧
      t.y < 9 ∧ t.x < 9 ∧ SameButCursor (gameOf scenarioGrid scenarioGrid 0 8) t) ∧
    (∃ t, step (gameOf scenarioGrid scenarioGrid 0 8) .right = some t ∧
      t.x = ((gameOf scenarioGrid scenarioGrid 0 8).x + 1) % 9 ∧
      t.y = (gameOf scenarioGrid scenarioGrid 0 8).y ∧
      t.y < 9 ∧ t.x < 9 ∧ SameButCursor (gameOf scenarioGrid scenarioGrid 0 8) t)) :=
  ⟨by decide, by decide,
    cursor_moves_wrap (gameOf scenarioGrid scenarioGrid 0 8) (by decide) (by decide)⟩

/-- The wrap-around cases of the spec: row 0 up lands on row 8, row 8 down on row 0, and
likewise for the columns. -/
theorem cursor_wraps_at_edges :
    (step (gameOf scenarioGrid scenarioGrid 0 0) .up).map (fun t => (t.y, t.x)) = some (8, 0) ∧
    (step (gameOf scenarioGrid scenarioGrid 8 0) .down).map (fun t => (t.y, t.x)) = some (0, 0) ∧
    (step (gameOf scenarioGrid scenarioGrid 0 0) .left).map (fun t => (t.y, t.x)) = some (0, 8) ∧
    (step (gameOf scenarioGrid scenarioGrid 0 8) .right).map (fun t => (t.y, t.x)) =
      some (0, 0) := by
  decide

/-! ## C12: blanks and the strict checks -/

set_option maxRecDepth 100000 in
/-- C12, as stated, fails: on a solved grid with one cell blanked the strict row check and
the strict column check still return true. -/
theorem strict_lines_pass_with_one_blank :
    InRange almostSolved ∧ HasBlank almostSolved ∧
    checkRows almostSolved 0 = true ∧ checkColumns almostSolved 0 = true := by
  decide

/-- C12, amended: on a board with cells in 0..9 and at least one blank, `checkSquares(0)`
returns false and therefore so does `wonGame`; `checkRows(0)` and `checkColumns(0)` return
false exactly when a row, respectively a column, holds equal values (two blanks included)
at two different positions, so a lone blank does not make them fail. -/
theorem strict_checks_on_blank (b : Board) (h : InRange b) (hb : HasBlank b) :
    checkSquares b 0 = false ∧
    (∀ s : Game, s.board = b → (wonGame s).1 = false) ∧
    (checkRows b 0 = false ↔
      ∃ r, r < 9 ∧ ∃ c1, c1 < 9 ∧ ∃ c2, c2 < 9 ∧ c1 ≠ c2 ∧ b r c1 = b r c2) ∧
    (checkColumns b 0 = false ↔
      ∃ c, c < 9 ∧ ∃ r1, r1 < 9 ∧ ∃ r2, r2 < 9 ∧ r1 ≠ r2 ∧ b r1 c = b r2 c) := by
  -- `h` marks the boards on which `checkSquares` is defined in C
  have _hrange := h
  obtain ⟨r, hr, c, hc, h0⟩ := hb
  have hsq : checkSquares b 0 = false := by
    by_contra hcon
    simp only [Bool.not_eq_false] at hcon
    exact no_blank_of_checkSquares b hcon r hr c hc h0
  refine ⟨hsq, ?_, ?_, ?_⟩
  · intro s hs
    rw [wonGame_flag, hs]
    exact wonFlag_blank b r c hr hc h0
  · rw [← Bool.not_eq_true, checkRows_strict]
    constructor
    · intro hn
      by_contra hex
      apply hn
      intro r' hr' p hp q hq hpq heq
      exact hex ⟨r', hr', p, hp, q, hq, hpq, heq⟩
    · rintro ⟨r', hr', p, hp, q, hq, hpq, heq⟩ hall
      exact hall r' hr' p hp q hq hpq heq
  · rw [← Bool.not_eq_true, checkColumns_strict]
    constructor
    · intro hn
      by_contra hex
      apply hn
      intro c' hc' p hp q hq hpq heq
      exact hex ⟨c', hc', p, hp, q, hq, hpq, heq⟩
    · rintro ⟨c', hc', p, hp, q, hq, hpq, heq⟩ hall
      exact hall c' hc' p hp q hq hpq heq

set_option maxRecDepth 100000 in
theorem strict_checks_on_blank_witness :
    InRange almostSolved ∧ HasBlank almostSolved ∧
    (checkSquares almostSolved 0 = false ∧
    (∀ s : Game, s.board = almostSolved → (wonGame s).1 = false) ∧
    (checkRows almostSolved 0 = false ↔
      ∃ r, r < 9 ∧ ∃ c1, c1 < 9 ∧ ∃ c2, c2 < 9 ∧ c1 ≠ c2 ∧
        almostSolved r c1 = almostSolved r c2) ∧
    (checkColumns almostSolved 0 = false ↔
      ∃ c, c < 9 ∧ ∃ r1, r1 < 9 ∧ ∃ r2, r2 < 9 ∧ r1 ≠ r2 ∧
        almostSolved r1 c = almostSolved r2 c)) :=
  ⟨by decide, by decide, strict_checks_on_blank almostSolved (by decide) (by decide)⟩

/-! ## Undo, other keys, undo -/

theorem step_noEdit (t : Game) (k : Key) (hk : k.noEdit = true) :
    ∃ t', step t k = some t' ∧ t'.board = t.board ∧
      t'.prev0 = t.prev0 ∧ t'.prev1 = t.prev1 ∧ t'.prev2 = t.prev2 := by
  cases k with
  | newGame d => exact absurd hk (by simp [Key.noEdit])
  | restart d => exact absurd hk (by simp [Key.noEdit])
  | quit => exact absurd hk (by simp [Key.noEdit])
  | digit ch => exact absurd hk (by simp [Key.noEdit])
  | clear => exact absurd hk (by simp [Key.noEdit])
  | undo => exact absurd hk (by simp [Key.noEdit])
  | redraw =>
    obtain ⟨scr, h⟩ := redraw_all_state t
    exact ⟨_, congrArg some h, rfl, rfl, rfl, rfl⟩
  | up =>
    refine ⟨_, rfl, ?_, ?_, ?_, ?_⟩ <;> split <;> rfl
  | down =>
    refine ⟨_, rfl, ?_, ?_, ?_, ?_⟩ <;> split <;> rfl
  | left =>
    refine ⟨_, rfl, ?_, ?_, ?_, ?_⟩ <;> split <;> rfl
  | right =>
    refine ⟨_, rfl, ?_, ?_, ?_, ?_⟩ <;> split <;> rfl
  | other => exact ⟨t, rfl, rfl, rfl, rfl, rfl⟩

theorem run_noEdit (ks : List Key) (hks : ∀ k, k ∈ ks → k.noEdit = true) :
    ∀ t : Game, ∃ t', run t ks = some t' ∧ t'.board = t.board ∧
      t'.prev0 = t.prev0 ∧ t'.prev1 = t.prev1 ∧ t'.prev2 = t.prev2 := by
  induction ks with
  | nil => intro t; exact ⟨t, rfl, rfl, rfl, rfl, rfl⟩
  | cons k ks ih =>
    intro t
    obtain ⟨t1, h1, hb1, e0, e1, e2⟩ := step_noEdit t k (hks k (List.mem_cons_self k ks))
    obtain ⟨t2, h2, hb2, f0, f1, f2⟩ :=
      ih (fun k' hk' => hks k' (List.mem_cons_of_mem k hk')) t1
    exact ⟨t2, by simp only [run, h1, h2], hb2.trans hb1, f0.trans e0, f1.trans e1,
      f2.trans e2⟩

/-- What one undo does to the board; the recorded move is left as it was. -/
theorem step_undo_board (t : Game) :
    ∃ t', step t .undo = some t' ∧
      t'.prev0 = t.prev0 ∧ t'.prev1 = t.prev1 ∧ t'.prev2 = t.prev2 ∧
      t'.board = (if t.prev0 ≠ 10 ∧ wonFlag t.board = false
        then setCell t.board t.prev0 t.prev1 t.prev2 else t.board) := by
  by_cases hp : t.prev0 = 10
  · refine ⟨t, step_undo_none t hp, rfl, rfl, rfl, ?_⟩
    rw [if_neg (fun h => h.1 hp)]
  · by_cases hw : wonFlag t.board = true
    · obtain ⟨scr, h⟩ := step_undo_won t hp hw
      refine ⟨_, h, rfl, rfl, rfl, ?_⟩
      show t.board = _
      rw [if_neg (fun h => by rw [hw] at h; exact absurd h.2 (by decide))]
    · simp only [Bool.not_eq_true] at hw
      obtain ⟨scr, h⟩ := step_undo_write t hp hw
      refine ⟨_, h, rfl, rfl, rfl, ?_⟩
      show setCell t.board t.prev0 t.prev1 t.prev2 = _
      rw [if_pos ⟨hp, hw⟩]

/-- Undo is idempotent on the board also across keys that do not edit: an undo, any
sequence of cursor keys, redraws and keys without a case, and a second undo leave every
cell as the first undo left it. -/
theorem undo_keys_undo_same_board (s : Game) (ks : List Key)
    (hks : ∀ k, k ∈ ks → k.noEdit = true) :
    ∃ s1 s2 s3, step s .undo = some s1 ∧ run s1 ks = some s2 ∧ step s2 .undo = some s3 ∧
      ∀ r c, s3.board r c = s1.board r c := by
  obtain ⟨s1, h1, p0, p1, p2, hb1⟩ := step_undo_board s
  obtain ⟨s2, h2, hb2, q0, q1, q2⟩ := run_noEdit ks hks s1
  obtain ⟨s3, h3, _, _, _, hb3⟩ := step_undo_board s2
  refine ⟨s1, s2, s3, h1, h2, h3, fun r c => ?_⟩
  rw [hb3, hb2, q0, q1, q2, p0, p1, p2]
  by_cases hc : s.prev0 ≠ 10 ∧ wonFlag s.board = false
  · rw [if_pos hc] at hb1
    rw [hb1]
    split
    · rw [setCell_twice]
    · rfl
  · rw [if_neg hc] at hb1
    rw [hb1, if_neg hc]

end Sudoku
